import Mathlib

/-!
Verification of the DPoS consensus state engine of Elastos.ELA.

The definitions below are a shallow embedding of the Go sources:
`dpos/state` (the producer registry, voting ledger and irreversibility
tracking, given here as `src/unnamed/part_001`) and
`core/transaction/voting.go` (the v2 voting context checks).

Modelling conventions:
  - Go maps become association lists `List (k × v)` with `mfind`, `mset`,
    `mdel`; Go map-backed sets become `List k` with `smem`, `sinsert`, `sdel`.
  - Go shares `*Producer` pointers between several containers.  We model the
    heap as one association list `producers : owner-key → Producer` and each
    container (`ActivityProducers`, `InactiveProducers`, ...) as the list of
    owner keys it holds, so that a field update through one container is
    visible through every other, exactly as for the Go pointers.
  - Hex-encoded public keys, Uint168 program hashes and Uint256 hashes are
    modelled as `String`; `hex.EncodeToString` is the identity on this model.
  - `uint32` arithmetic that can wrap is made explicit through `u32sub`;
    `common.Fixed64` (an `int64`) is modelled as `Int`.
  - The content-addressed refer key of a `DetailedVoteInfo` is a hash of all
    of its fields; we model it by the record itself (hash collisions are
    ignored, the hash is treated as injective).
-/

namespace ElaState

/-- The value `math.MaxUint32`, used by the Go code as the "no activation
request" marker for `activateRequestHeight`. -/
def MaxUint32 : Nat := 4294967295

/-- Modulus of `uint32` arithmetic. -/
def U32Mod : Nat := 4294967296

/-- Wrapping `uint32` subtraction: for `a, b < 2^32` this is exactly the Go
expression `a - b` on `uint32` operands. -/
def u32sub (a b : Nat) : Nat := if b ≤ a then a - b else a + U32Mod - b

/-- Association-list lookup, the model of a Go map read `m[k]`. -/
def mfind {α β : Type} [DecidableEq α] : List (α × β) → α → Option β
  | [], _ => none
  | (k', v) :: t, k => if k' = k then some v else mfind t k

/-- Association-list update, the model of a Go map write `m[k] = v`:
replaces in place, or appends when the key is fresh. -/
def mset {α β : Type} [DecidableEq α] : List (α × β) → α → β → List (α × β)
  | [], k, v => [(k, v)]
  | (k', v') :: t, k, v => if k' = k then (k, v) :: t else (k', v') :: mset t k v

/-- Association-list removal, the model of the Go `delete(m, k)`. -/
def mdel {α β : Type} [DecidableEq α] : List (α × β) → α → List (α × β)
  | [], _ => []
  | (k', v') :: t, k => if k' = k then mdel t k else (k', v') :: mdel t k

/-- Lookup with a zero default, the model of reading a missing numeric Go map
entry (Go yields the zero value). -/
def mfindD {α : Type} [DecidableEq α] (l : List (α × Int)) (k : α) : Int :=
  (mfind l k).getD 0

/-- Add to a numeric Go map entry, the model of `m[k] += v`. -/
def madd {α : Type} [DecidableEq α] (l : List (α × Int)) (k : α) (v : Int) :
    List (α × Int) :=
  mset l k (mfindD l k + v)

/-- Set membership, the model of `_, ok := s[k]`. -/
def smem (l : List String) (k : String) : Bool := l.contains k

/-- Set insertion, the model of `s[k] = struct{}{}`. -/
def sinsert (l : List String) (k : String) : List String :=
  if smem l k then l else k :: l

/-- Set removal, the model of `delete(s, k)`. -/
def sdel (l : List String) (k : String) : List String :=
  l.filter (fun x => x ≠ k)

/-- Producer lifecycle state (`type ProducerState byte` in the source). -/
inductive ProducerState : Type
  | Pending
  | Active
  | Inactive
  | Canceled
  | Illegal
  | Returned
deriving DecidableEq

/-- Consensus mode (`type ConsesusAlgorithm byte`; keeping the spelling of
the source).  Modelled from the spec: the constant block is outside src; the
spec (§4.3) gives the two modes, DPoS being the initial one. -/
inductive ConsesusAlgorithm : Type
  | DPOS
  | POW
deriving DecidableEq

/-- Vote type of a voting content (`outputpayload` constants). -/
inductive VoteType : Type
  | Delegate
  | CRC
  | CRCProposal
  | CRCImpeachment
  | DposV2
deriving DecidableEq

/-- One candidate vote (`payload.VotesWithLockTime`). -/
structure VotesWithLockTime : Type where
  candidate : String
  votes : Int
  lockTime : Nat
deriving DecidableEq

/-- Detailed v2 vote record (`payload.DetailedVoteInfo`).  Its refer key is
the content hash of all fields; we identify key and record. -/
structure DetailedVoteInfo : Type where
  stakeProgramHash : String
  transactionHash : String
  blockHeight : Nat
  payloadVersion : Nat
  voteType : VoteType
  info : VotesWithLockTime
deriving DecidableEq

/-- Producer identity payload (`payload.ProducerInfo`); url, location and
net address are carried by the source but never read by the operations
embedded here. -/
structure ProducerInfo : Type where
  ownerPublicKey : String
  nodePublicKey : String
  nickName : String
  stakeUntil : Nat
deriving DecidableEq

/-- Per-producer record (struct `Producer` of `dpos/state`). -/
structure Producer : Type where
  info : ProducerInfo
  state : ProducerState
  registerHeight : Nat
  cancelHeight : Nat
  inactiveSince : Nat
  activateRequestHeight : Nat
  illegalHeight : Nat
  penalty : Int
  votes : Int
  dposV2Votes : Int
  detailedDPoSV2Votes : List (String × List (DetailedVoteInfo × DetailedVoteInfo))
  depositAmount : Int
  totalAmount : Int
  depositHash : String
  selected : Bool
  randomCandidateInactiveCount : Nat
  inactiveCountingHeight : Nat
  lastUpdateInactiveHeight : Nat
  inactiveCount : Nat
deriving DecidableEq

/-- Chain parameters read by the embedded operations (`config.Params`). -/
structure ChainParams : Type where
  revertToPOWStartHeight : Nat
  crcOnlyDPOSHeight : Nat
  changeCommitteeNewCRHeight : Nat
  inactivePenalty : Int
  emergencyInactivePenalty : Int
  illegalPenalty : Int
  dposV2EffectiveVotes : Int
deriving DecidableEq

/-- The aggregate mutable state (`StateKeyFrame` plus the height/mode fields
of `State`).  Containers hold owner keys into the `producers` heap, see the
file comment. -/
structure StateKeyFrame : Type where
  producers : List (String × Producer)
  pendingKeys : List String
  activityKeys : List String
  inactiveKeys : List String
  canceledKeys : List String
  illegalKeys : List String
  pendingCanceledKeys : List String
  dposV2ActivityKeys : List String
  dposV2EffectedKeys : List String
  nicknames : List String
  nodeOwnerKeys : List (String × String)
  producerDepositMap : List String
  depositOutputs : List (String × Int)
  dposVotes : List (String × Int)
  dposV2Votes : List (String × Int)
  crVotes : List (String × Int)
  crImpeachmentVotes : List (String × Int)
  dposV2VoteRights : List (String × Int)
  detailDPoSV1Votes : List (DetailedVoteInfo × DetailedVoteInfo)
  versionStartHeight : Nat
  versionEndHeight : Nat
  lastIrreversibleHeight : Nat
  dposStartHeight : Nat
  dposWorkHeight : Nat
  revertToPOWBlockHeight : Nat
  consensusAlgorithm : ConsesusAlgorithm
  noProducers : Bool
  noClaimDPOSNode : Bool
  needRevertToDPOSTX : Bool
deriving DecidableEq

/-- The empty key frame (`NewStateKeyFrame`, whose body is outside src).
Modelled from the spec: every container empty, every height zero, the
consensus mode DPoS (§4.3, §4.7). -/
def initStateKeyFrame : StateKeyFrame where
  producers := []
  pendingKeys := []
  activityKeys := []
  inactiveKeys := []
  canceledKeys := []
  illegalKeys := []
  pendingCanceledKeys := []
  dposV2ActivityKeys := []
  dposV2EffectedKeys := []
  nicknames := []
  nodeOwnerKeys := []
  producerDepositMap := []
  depositOutputs := []
  dposVotes := []
  dposV2Votes := []
  crVotes := []
  crImpeachmentVotes := []
  dposV2VoteRights := []
  detailDPoSV1Votes := []
  versionStartHeight := 0
  versionEndHeight := 0
  lastIrreversibleHeight := 0
  dposStartHeight := 0
  dposWorkHeight := 0
  revertToPOWBlockHeight := 0
  consensusAlgorithm := ConsesusAlgorithm.DPOS
  noProducers := false
  noClaimDPOSNode := false
  needRevertToDPOSTX := false

/-- Resolve a public key to the owner key (`getProducerKey`): a node key is
translated through `NodeOwnerKeys`, anything else is used as is. -/
def getProducerKey (s : StateKeyFrame) (publicKey : String) : String :=
  match mfind s.nodeOwnerKeys publicKey with
  | some owner => owner
  | none => publicKey

/-- Container lookup in source order (`getProducerByOwnerPublicKey`):
activity, canceled, illegal, pending, inactive. -/
def getProducerByOwnerPublicKey (s : StateKeyFrame) (key : String) :
    Option Producer :=
  if smem s.activityKeys key then mfind s.producers key
  else if smem s.canceledKeys key then mfind s.producers key
  else if smem s.illegalKeys key then mfind s.producers key
  else if smem s.pendingKeys key then mfind s.producers key
  else if smem s.inactiveKeys key then mfind s.producers key
  else none

/-- Producer lookup by node or owner public key (`getProducer`). -/
def getProducer (s : StateKeyFrame) (publicKey : String) : Option Producer :=
  getProducerByOwnerPublicKey s (getProducerKey s publicKey)

/-- DPoSV2 producer lookup (`getDPoSV2Producer`).  The source dereferences
the container result without a nil check (`produer.info.StakeUntil`), so a
missing producer is a nil-pointer dereference: we return it as an error. -/
def getDPoSV2Producer (s : StateKeyFrame) (publicKey : String) :
    Except String (Option Producer) :=
  let key := getProducerKey s publicKey
  match getProducerByOwnerPublicKey s key with
  | none => Except.error "nil pointer dereference: produer.info.StakeUntil"
  | some p =>
      if p.info.stakeUntil = 0 then Except.ok none else Except.ok (some p)

/-- Number of confirmations before a height is irreversible
(`const IrreversibleHeight = 6`). -/
def IrreversibleHeight : Nat := 6

/-- Lower bound on a v2 vote lock period (`var MinVotesLockTime uint32 = 7200`
in voting.go). -/
def MinVotesLockTime : Nat := 7200

/-- Deposit program hash derived from the owner public key
(`contract.PublicKeyToDepositProgramHash`, outside src): modelled as an
injective tagging of the key. -/
def depositProgramHash (ownerPublicKey : String) : String :=
  String.append "deposit:" ownerPublicKey

/-- Minimum producer deposit (`state.MinDepositAmount`, outside src; the
numeric value, 5000 ELA in satoshi, is immaterial to the claims). -/
def MinDepositAmount : Int := 500000000000

/-- The register producer handler (`registerProducer`), giving the effect of
the appended do closure.  The deposit outputs of the transaction are passed
as the (refer key, value) pairs of the outputs paying the deposit program
hash; `amount` is their sum, as computed by the output scan of the source. -/
def registerProducer (s : StateKeyFrame) (info : ProducerInfo) (height : Nat)
    (depositOutputs : List (String × Int)) : StateKeyFrame :=
  let nickname := info.nickName
  let nodeKey := info.nodePublicKey
  let ownerKey := info.ownerPublicKey
  let programHash := depositProgramHash info.ownerPublicKey
  let amount := (depositOutputs.map Prod.snd).sum
  match getProducer s info.nodePublicKey with
  | none =>
      let producer : Producer :=
        { info := info
          state := ProducerState.Pending
          registerHeight := height
          cancelHeight := 0
          inactiveSince := 0
          activateRequestHeight := MaxUint32
          illegalHeight := 0
          penalty := 0
          votes := 0
          dposV2Votes := 0
          detailedDPoSV2Votes := []
          depositAmount := MinDepositAmount
          totalAmount := amount
          depositHash := programHash
          selected := false
          randomCandidateInactiveCount := 0
          inactiveCountingHeight := 0
          lastUpdateInactiveHeight := 0
          inactiveCount := 0 }
      { s with
          nicknames := sinsert s.nicknames nickname
          nodeOwnerKeys := mset s.nodeOwnerKeys nodeKey ownerKey
          producers := mset s.producers ownerKey producer
          pendingKeys := sinsert s.pendingKeys ownerKey
          producerDepositMap := sinsert s.producerDepositMap programHash
          depositOutputs :=
            depositOutputs.foldl (fun m kv => mset m kv.1 kv.2) s.depositOutputs }
  | some _ => updateProducerTx s info height
where
  /-- The update producer handler (`updateProducer`): applies the forward
  `updateProducerInfo` of the appended do closure. -/
  updateProducerTx (s : StateKeyFrame) (info : ProducerInfo) (_height : Nat) :
      StateKeyFrame :=
    match getProducer s info.ownerPublicKey with
    | none => s
    | some producer => updateProducerInfo s producer.info info
  /-- The in-place info update (`updateProducerInfo`): swap the nickname and
  node-owner index entries when changed, then overwrite `producer.info`. -/
  updateProducerInfo (s : StateKeyFrame) (origin update : ProducerInfo) :
      StateKeyFrame :=
    let key := getProducerKey s origin.ownerPublicKey
    let producer? := getProducerByOwnerPublicKey s key
    let s1 :=
      if origin.nickName ≠ update.nickName then
        { s with nicknames := sinsert (sdel s.nicknames origin.nickName) update.nickName }
      else s
    let s2 :=
      if origin.nodePublicKey ≠ update.nodePublicKey then
        { s1 with nodeOwnerKeys := mset (mdel s1.nodeOwnerKeys origin.nodePublicKey) update.nodePublicKey origin.ownerPublicKey }
      else s1
    match producer? with
    | none => s2
    | some p => { s2 with producers := mset s2.producers key { p with info := update } }

/-- The cancel producer handler (`cancelProducer`), giving the effect of the
appended do closure.  When the producer is missing the Go code dereferences
a nil pointer; the context check rules that out, and the model returns the
frame unchanged in that branch. -/
def cancelProducer (s : StateKeyFrame) (ownerPublicKey : String) (height : Nat) :
    StateKeyFrame :=
  let key := ownerPublicKey
  match getProducer s ownerPublicKey with
  | none => s
  | some producer =>
      let oriState := producer.state
      let p := { producer with state := ProducerState.Canceled, cancelHeight := height }
      let s1 := { s with
          producers := mset s.producers key p
          canceledKeys := sinsert s.canceledKeys key }
      let s2 :=
        match oriState with
        | ProducerState.Pending =>
            { s1 with pendingKeys := sdel s1.pendingKeys key
                      pendingCanceledKeys := sinsert s1.pendingCanceledKeys key }
        | ProducerState.Active =>
            { s1 with activityKeys := sdel s1.activityKeys key
                      dposV2ActivityKeys := sdel s1.dposV2ActivityKeys key }
        | ProducerState.Inactive =>
            { s1 with inactiveKeys := sdel s1.inactiveKeys key }
        | _ => s1
      { s2 with nicknames := sdel s2.nicknames producer.info.nickName }

/-- Do closure of the activate producer handler (`activateProducer`): set the
activation request height of the resolved producer to the current height.
When no producer matches, the source returns without appending. -/
def activateProducerDo (s : StateKeyFrame) (nodePublicKey : String) (height : Nat) :
    StateKeyFrame :=
  let key := getProducerKey s nodePublicKey
  match getProducerByOwnerPublicKey s key with
  | none => s
  | some p =>
      { s with producers := mset s.producers key { p with activateRequestHeight := height } }

/-- Undo closure of the activate producer handler: the source resets
`activateRequestHeight` to `math.MaxUint32` (not to the captured previous
value).  The key of the captured producer pointer is passed in. -/
def activateProducerUndo (s : StateKeyFrame) (key : String) : StateKeyFrame :=
  match mfind s.producers key with
  | none => s
  | some p =>
      { s with producers := mset s.producers key { p with activateRequestHeight := MaxUint32 } }

/-- Do closure of the illegal evidence handler for a producer found in
`ActivityProducers` (`processIllegalEvidence`, active branch). -/
def processIllegalEvidenceActiveDo (params : ChainParams) (s : StateKeyFrame)
    (key : String) (height : Nat) : StateKeyFrame :=
  match mfind s.producers key with
  | none => s
  | some producer =>
      let p := { producer with
          state := ProducerState.Illegal
          illegalHeight := height
          activateRequestHeight := MaxUint32
          penalty :=
            if params.changeCommitteeNewCRHeight ≤ height then
              producer.penalty + params.illegalPenalty
            else producer.penalty }
      { s with
          producers := mset s.producers key p
          illegalKeys := sinsert s.illegalKeys key
          activityKeys := sdel s.activityKeys key
          dposV2ActivityKeys :=
            if producer.info.stakeUntil ≠ 0 then sdel s.dposV2ActivityKeys key
            else s.dposV2ActivityKeys }

/-- Undo closure of the illegal evidence handler, active branch: restores the
captured `oriState`, `oriPenalty` and `oriIllegalHeight`, but resets
`activateRequestHeight` to `math.MaxUint32` instead of a captured value. -/
def processIllegalEvidenceActiveUndo (s : StateKeyFrame) (key : String)
    (oriState : ProducerState) (oriPenalty : Int) (oriIllegalHeight : Nat) :
    StateKeyFrame :=
  match mfind s.producers key with
  | none => s
  | some producer =>
      let p := { producer with
          state := oriState
          penalty := oriPenalty
          illegalHeight := oriIllegalHeight
          activateRequestHeight := MaxUint32 }
      { s with
          producers := mset s.producers key p
          activityKeys := sinsert s.activityKeys key
          dposV2ActivityKeys :=
            if producer.info.stakeUntil ≠ 0 then sinsert s.dposV2ActivityKeys key
            else s.dposV2ActivityKeys
          illegalKeys := sdel s.illegalKeys key }

/-- Set a producer inactive (`setInactiveProducer`): move it to the inactive
container, stamp `inactiveSince`, reset the activation request and the
`selected` flag, and apply the penalty rule of the source. -/
def setInactiveProducer (params : ChainParams) (s : StateKeyFrame) (key : String)
    (height : Nat) (emergency : Bool) : StateKeyFrame :=
  match mfind s.producers key with
  | none => s
  | some producer =>
      let p0 := { producer with
          inactiveSince := height
          activateRequestHeight := MaxUint32
          state := ProducerState.Inactive
          selected := false }
      let p :=
        if height < s.versionStartHeight ∨ s.versionEndHeight ≤ height then
          if emergency = false then
            if params.changeCommitteeNewCRHeight ≤ height then
              { p0 with penalty := p0.penalty + params.inactivePenalty }
            else p0
          else { p0 with penalty := p0.penalty + params.emergencyInactivePenalty }
        else p0
      { s with
          producers := mset s.producers key p
          inactiveKeys := sinsert s.inactiveKeys key
          activityKeys := sdel s.activityKeys key
          dposV2ActivityKeys :=
            if producer.info.stakeUntil ≠ 0 then sdel s.dposV2ActivityKeys key
            else s.dposV2ActivityKeys }

/-- The revert-to-POW handler (`processRevertToPOW`), do closure. -/
def processRevertToPOW (s : StateKeyFrame) (height : Nat) : StateKeyFrame :=
  { s with
      consensusAlgorithm := ConsesusAlgorithm.POW
      noProducers := false
      noClaimDPOSNode := false
      dposWorkHeight := 0
      revertToPOWBlockHeight := height }

/-- The revert-to-DPoS handler (`processRevertToDPOS`), do closure. -/
def processRevertToDPOS (s : StateKeyFrame) (height workHeightInterval : Nat) :
    StateKeyFrame :=
  { s with
      dposWorkHeight := height + workHeightInterval
      needRevertToDPOSTX := false }

/-- The flip back to DPoS at the end of `processTransactions`: when a work
height is set, reached, and the mode is still POW. -/
def revertToDPOSEndOfBlock (s : StateKeyFrame) (height : Nat) : StateKeyFrame :=
  if s.dposWorkHeight ≠ 0 ∧ s.dposWorkHeight ≤ height ∧
      s.consensusAlgorithm = ConsesusAlgorithm.POW then
    { s with consensusAlgorithm := ConsesusAlgorithm.DPOS }
  else s

/-- The irreversible height update (`tryUpdateLastIrreversibleHeight`),
giving the combined effect of the do closures it appends.  The advance check
reads `DPOSStartHeight` after the transition closure already ran, exactly as
in the source, where `History.Append` executes each do immediately. -/
def tryUpdateLastIrreversibleHeight (params : ChainParams) (s : StateKeyFrame)
    (height : Nat) : StateKeyFrame :=
  if height < params.revertToPOWStartHeight then s
  else if s.lastIrreversibleHeight = 0 then
    let lih := u32sub height IrreversibleHeight
    { s with lastIrreversibleHeight := lih, dposStartHeight := lih }
  else if s.consensusAlgorithm = ConsesusAlgorithm.DPOS then
    let s1 :=
      if s.dposWorkHeight ≠ 0 ∧ height = s.dposWorkHeight + 1 then
        { s with dposStartHeight := height }
      else s
    if IrreversibleHeight ≤ u32sub height s1.dposStartHeight then
      { s1 with
          dposStartHeight := s1.dposStartHeight + 1
          lastIrreversibleHeight := s1.dposStartHeight + 1 }
    else s1
  else s

/-- The reorg admissibility check (`IsIrreversible`).  `detachNodesLen` is a
Go `int`, converted to `uint32` inside the subtraction; both arguments are
assumed below `2^32`. -/
def IsIrreversible (params : ChainParams) (s : StateKeyFrame)
    (curBlockHeight detachNodesLen : Nat) : Bool :=
  if curBlockHeight ≤ params.crcOnlyDPOSHeight then false
  else if u32sub (u32sub curBlockHeight detachNodesLen) 1 ≤ s.lastIrreversibleHeight then
    true
  else if params.revertToPOWStartHeight ≤ curBlockHeight then
    if s.consensusAlgorithm = ConsesusAlgorithm.DPOS then
      decide (IrreversibleHeight < detachNodesLen)
    else false
  else decide (IrreversibleHeight < detachNodesLen)

/-- The transaction kinds dispatched by `processTransaction`. -/
inductive TxType : Type
  | RegisterProducer
  | UpdateProducer
  | CancelProducer
  | ActivateProducer
  | TransferAsset
  | ExchangeVotes
  | Voting
  | IllegalProposalEvidence
  | IllegalVoteEvidence
  | IllegalBlockEvidence
  | IllegalSidechainEvidence
  | InactiveArbitrators
  | ReturnDepositCoin
  | UpdateVersion
  | NextTurnDPOSInfo
  | CRCouncilMemberClaimNode
  | RevertToPOW
  | RevertToDPOS
  | DposV2ClaimReward
  | DposV2ClaimRewardRealWithdraw
deriving DecidableEq

/-- The two tail steps of `processTransaction`. -/
inductive TailStep : Type
  | processDeposit
  | processCancelVotes
deriving DecidableEq

/-- The tail of `processTransaction` after the kind dispatch:
`if tx.TxType() != common2.RegisterProducer { s.processDeposit(tx, height) };
s.processCancelVotes(tx, height)` — the list of tail calls it executes, in
order. -/
def processTransactionTailSteps (txType : TxType) : List TailStep :=
  (if txType ≠ TxType.RegisterProducer then [TailStep.processDeposit] else [])
    ++ [TailStep.processCancelVotes]

/-- The running maximum of the candidate votes of a Delegate content
(`var maxVotes common.Fixed64; ... if maxVotes < vote.Votes`). -/
def maxVotesOf (votesInfo : List VotesWithLockTime) : Int :=
  votesInfo.foldl (fun m v => if m < v.votes then v.votes else m) 0

/-- The total votes of a content (`totalVotes += vote.Votes`). -/
def totalVotesOf (votesInfo : List VotesWithLockTime) : Int :=
  (votesInfo.map VotesWithLockTime.votes).sum

/-- One iteration of the producer-votes loop of the Delegate branch of
`processVotingContent`: resolve the candidate and add its votes, skipping
unresolved candidates. -/
def addProducerVotes (s : StateKeyFrame) (v : VotesWithLockTime) : StateKeyFrame :=
  let key := getProducerKey s v.candidate
  match getProducerByOwnerPublicKey s key with
  | none => s
  | some producer =>
      { s with producers := mset s.producers key { producer with votes := producer.votes + v.votes } }

/-- The `DetailedVoteInfo` recorded for one vote entry of a content. -/
def mkDetailedVoteInfo (stakeAddress txHash : String) (height payloadVersion : Nat)
    (voteType : VoteType) (vote : VotesWithLockTime) : DetailedVoteInfo :=
  { stakeProgramHash := stakeAddress
    transactionHash := txHash
    blockHeight := height
    payloadVersion := payloadVersion
    voteType := voteType
    info := vote }

/-- The Delegate branch of `processVotingContent`: bump the per-stake DPoS
tally by the content maximum, then add votes to each resolvable candidate,
then record a `DetailedVoteInfo` for every vote entry. -/
def processVotingContentDelegate (s : StateKeyFrame) (stakeAddress txHash : String)
    (height payloadVersion : Nat) (votesInfo : List VotesWithLockTime) :
    StateKeyFrame :=
  let s1 := { s with dposVotes := madd s.dposVotes stakeAddress (maxVotesOf votesInfo) }
  let s2 := votesInfo.foldl addProducerVotes s1
  votesInfo.foldl
    (fun st vote =>
      let dvi := mkDetailedVoteInfo stakeAddress txHash height payloadVersion
        VoteType.Delegate vote
      { st with detailDPoSV1Votes := mset st.detailDPoSV1Votes dvi dvi })
    s2

/-- One iteration of the DposV2 branch of `processVotingContent`.  The
candidate lookup goes through `getDPoSV2Producer`, whose nil-pointer
dereference is surfaced as an error; a missing DPoSV2 producer is skipped. -/
def processVotingContentDposV2Step (params : ChainParams)
    (stakeAddress txHash : String) (height payloadVersion : Nat)
    (s : StateKeyFrame) (v : VotesWithLockTime) : Except String StateKeyFrame :=
  match getDPoSV2Producer s v.candidate with
  | Except.error e => Except.error e
  | Except.ok none => Except.ok s
  | Except.ok (some producer) =>
      let key := getProducerKey s v.candidate
      let dvi := mkDetailedVoteInfo stakeAddress txHash height payloadVersion
        VoteType.DposV2 v
      let inner := (mfind producer.detailedDPoSV2Votes stakeAddress).getD []
      let p := { producer with
          detailedDPoSV2Votes :=
            mset producer.detailedDPoSV2Votes stakeAddress (mset inner dvi dvi)
          dposV2Votes := producer.dposV2Votes + v.votes }
      let s1 := { s with producers := mset s.producers key p }
      if params.dposV2EffectiveVotes ≤ p.dposV2Votes then
        Except.ok { s1 with
          dposV2EffectedKeys := sinsert s1.dposV2EffectedKeys producer.info.ownerPublicKey }
      else Except.ok s1

/-- The DposV2 branch of `processVotingContent`: bump the per-stake v2 tally
by the content total, then process every vote entry in order. -/
def processVotingContentDposV2 (params : ChainParams)
    (stakeAddress txHash : String) (height payloadVersion : Nat)
    (s : StateKeyFrame) (votesInfo : List VotesWithLockTime) :
    Except String StateKeyFrame :=
  let s1 := { s with dposV2Votes := madd s.dposV2Votes stakeAddress (totalVotesOf votesInfo) }
  votesInfo.foldlM (processVotingContentDposV2Step params stakeAddress txHash height payloadVersion) s1

/-- Detailed-vote lookup on a producer (`GetDetailedDPoSV2Votes`): the source
returns the zero record together with an error when either level of the
nested map misses; `none` models the error case. -/
def GetDetailedDPoSV2Votes (p : Producer) (stakeAddress : String)
    (referKey : DetailedVoteInfo) : Option DetailedVoteInfo :=
  mfind ((mfind p.detailedDPoSV2Votes stakeAddress).getD []) referKey

/-- The zero `DetailedVoteInfo`, the Go zero value returned by
`GetDetailedDPoSV2Votes` alongside its error. -/
def zeroDetailedVoteInfo : DetailedVoteInfo :=
  { stakeProgramHash := ""
    transactionHash := ""
    blockHeight := 0
    payloadVersion := 0
    voteType := VoteType.Delegate
    info := { candidate := "", votes := 0, lockTime := 0 } }

/-- One renewal content (`payload.RenewalVotesContent`): the refer key of the
old record and the new vote information. -/
structure RenewalVotesContent : Type where
  referKey : DetailedVoteInfo
  votesInfo : VotesWithLockTime
deriving DecidableEq

/-- One content of the renewal branch of `processRenewalVotingContent`: the
do closure inserts the rebuilt detail under its new refer key and deletes the
old refer key.  The source reads the old record with
`voteInfo, _ := producer.GetDetailedDPoSV2Votes(...)`, ignoring the error and
so using the zero record when the lookup misses. -/
def processRenewalVotingContentOne (s : StateKeyFrame) (stakeAddress txHash : String)
    (_height : Nat) (content : RenewalVotesContent) : Except String StateKeyFrame :=
  match getDPoSV2Producer s content.votesInfo.candidate with
  | Except.error e => Except.error e
  | Except.ok none => Except.ok s
  | Except.ok (some producer) =>
      let key := getProducerKey s content.votesInfo.candidate
      let voteInfo :=
        (GetDetailedDPoSV2Votes producer stakeAddress content.referKey).getD
          zeroDetailedVoteInfo
      let detailVoteInfo : DetailedVoteInfo :=
        { stakeProgramHash := stakeAddress
          transactionHash := txHash
          blockHeight := voteInfo.blockHeight
          payloadVersion := voteInfo.payloadVersion
          voteType := VoteType.DposV2
          info := content.votesInfo }
      let inner := (mfind producer.detailedDPoSV2Votes stakeAddress).getD []
      let inner1 := mdel (mset inner detailVoteInfo detailVoteInfo) content.referKey
      let p := { producer with
          detailedDPoSV2Votes := mset producer.detailedDPoSV2Votes stakeAddress inner1 }
      Except.ok { s with producers := mset s.producers key p }

/-- The renewal branch of the state engine (`processRenewalVotingContent`)
over the renewal contents of one transaction. -/
def processRenewalVotingContent (s : StateKeyFrame) (stakeAddress txHash : String)
    (height : Nat) (contents : List RenewalVotesContent) :
    Except String StateKeyFrame :=
  contents.foldlM (fun st c => processRenewalVotingContentOne st stakeAddress txHash height c) s

/-- Modelled from the spec: `Producer.GetDetailDPoSV2Votes`, called by the
renewal branch of the voting context check, is outside src; per §4.5 of the
spec it finds the existing `DetailedVoteInfo` stored under
`(stake, refer_key)` and fails when there is none. -/
def GetDetailDPoSV2Votes (p : Producer) (stakeAddress : String)
    (referKey : DetailedVoteInfo) : Except String DetailedVoteInfo :=
  match GetDetailedDPoSV2Votes p stakeAddress referKey with
  | none => Except.error "refer key not found"
  | some v => Except.ok v

/-- The renewal branch of `VotingTransaction.SpecialContextCheck`
(voting.go): look up the old record and verify its type, lock time relation,
votes and candidate, for one renewal content. -/
def specialContextCheckRenewal (p : Producer) (stakeProgramHash : String)
    (content : RenewalVotesContent) : Except String Unit :=
  match GetDetailDPoSV2Votes p stakeProgramHash content.referKey with
  | Except.error e => Except.error e
  | Except.ok vote =>
      if vote.voteType ≠ VoteType.DposV2 then Except.error "invalid vote type"
      else if vote.blockHeight < content.votesInfo.lockTime then
        Except.error "invalid lock time"
      else if vote.info.votes ≠ content.votesInfo.votes then
        Except.error "votes not equal"
      else if vote.info.candidate ≠ content.votesInfo.candidate then
        Except.error "candidate should be the same one"
      else Except.ok ()

/-- The per-vote loop of `checkDPoSV2Content` (voting.go): `pds` maps each
DPoSV2 producer key to its `StakeUntil`; on success the accumulated total
votes are returned.  The lock time test is the Go uint32 expression
`cv.LockTime > lockUntil || cv.LockTime-t.parameters.BlockHeight < MinVotesLockTime`. -/
def checkDPoSV2VotesLoop (blockHeight : Nat) (pds : List (String × Nat)) :
    List VotesWithLockTime → Except String Int
  | [] => Except.ok 0
  | cv :: rest =>
      match mfind pds cv.candidate with
      | none => Except.error "invalid vote output payload producer candidate"
      | some lockUntil =>
          if lockUntil < cv.lockTime ∨ u32sub cv.lockTime blockHeight < MinVotesLockTime then
            Except.error "invalid DPoS 2.0 votes lock time"
          else
            match checkDPoSV2VotesLoop blockHeight pds rest with
            | Except.error e => Except.error e
            | Except.ok total => Except.ok (cv.votes + total)

/-- The DposV2 content check (`checkDPoSV2Content` in voting.go). -/
def checkDPoSV2Content (blockHeight : Nat) (votesInfo : List VotesWithLockTime)
    (pds : List (String × Nat)) (outputValue voteRights : Int) :
    Except String Unit :=
  match checkDPoSV2VotesLoop blockHeight pds votesInfo with
  | Except.error e => Except.error e
  | Except.ok totalVotes =>
      if outputValue < totalVotes then Except.error "votes larger than output amount"
      else if voteRights < totalVotes then Except.error "DPoSV2 vote rights not enough"
      else Except.ok ()

/-- The transactions relevant to the irreversible height machinery that can
occur inside one block. -/
inductive ModeTx : Type
  | revertToPOW
  | revertToDPOS (workHeightInterval : Nat)
deriving DecidableEq

/-- Apply one mode transaction at the given height, as dispatched by
`processTransaction`. -/
def applyModeTx (height : Nat) (s : StateKeyFrame) : ModeTx → StateKeyFrame
  | ModeTx.revertToPOW => processRevertToPOW s height
  | ModeTx.revertToDPOS interval => processRevertToDPOS s height interval

/-- The fragment of `ProcessBlock` driving the irreversible height: process
the mode transactions of the block, run the end-of-`processTransactions`
flip back to DPoS, then `tryUpdateLastIrreversibleHeight`. -/
def processBlockMode (params : ChainParams) (s : StateKeyFrame) (height : Nat)
    (txs : List ModeTx) : StateKeyFrame :=
  tryUpdateLastIrreversibleHeight params
    (revertToDPOSEndOfBlock (txs.foldl (applyModeTx height) s) height) height

/-- Run a chain of blocks, each given as its height and its mode
transactions, through `processBlockMode`. -/
def runModeBlocks (params : ChainParams) (s : StateKeyFrame)
    (blocks : List (Nat × List ModeTx)) : StateKeyFrame :=
  blocks.foldl (fun st b => processBlockMode params st b.1 b.2) s

/-- Registry operations for the nickname invariant: the two cited handlers,
register and cancel. -/
inductive RegistryOp : Type
  | register (info : ProducerInfo) (height : Nat) (depositOutputs : List (String × Int))
  | cancel (ownerPublicKey : String) (height : Nat)

/-- Apply one registry operation to the frame. -/
def applyRegistryOp (s : StateKeyFrame) : RegistryOp → StateKeyFrame
  | RegistryOp.register info height outs => registerProducer s info height outs
  | RegistryOp.cancel owner height => cancelProducer s owner height

/-- Run a sequence of registry operations from the empty frame. -/
def runRegistry (ops : List RegistryOp) : StateKeyFrame :=
  ops.foldl applyRegistryOp initStateKeyFrame

/-- Admissibility of one registry operation, mirroring the context checks the
core relies on (the spec: the core receives pre-validated transactions):
a register carries fresh node, owner and nickname; a cancel names the owner
key of an existing producer in a cancelable state. -/
def RegistryOpOK (s : StateKeyFrame) : RegistryOp → Prop
  | RegistryOp.register info _ _ =>
      getProducer s info.nodePublicKey = none ∧
      mfind s.producers info.ownerPublicKey = none ∧
      info.nickName ∉ s.nicknames
  | RegistryOp.cancel owner _ =>
      mfind s.nodeOwnerKeys owner = none ∧
      getProducer s owner = mfind s.producers owner ∧
      cancelableState (mfind s.producers owner) = true
where
  /-- A looked-up producer is cancelable while Pending, Active or Inactive
  (the states of the `switch` of `cancelProducer`). -/
  cancelableState : Option Producer → Bool
    | some p =>
        decide (p.state = ProducerState.Pending ∨ p.state = ProducerState.Active ∨
          p.state = ProducerState.Inactive)
    | none => false

instance (s : StateKeyFrame) (op : RegistryOp) : Decidable (RegistryOpOK s op) := by
  cases op with
  | register info height outs => unfold RegistryOpOK; infer_instance
  | cancel owner height => unfold RegistryOpOK; infer_instance

/-- A well-formed trace: every operation admissible in the frame it is
applied to. -/
inductive WFOps : StateKeyFrame → List RegistryOp → Prop
  | nil (s : StateKeyFrame) : WFOps s []
  | cons (s : StateKeyFrame) (op : RegistryOp) (ops : List RegistryOp) :
      RegistryOpOK s op → WFOps (applyRegistryOp s op) ops → WFOps s (op :: ops)

/-- A producer counts for the nickname set while it is neither Canceled nor
Returned. -/
def notCanceledOrReturned (st : ProducerState) : Bool :=
  decide (st ≠ ProducerState.Canceled ∧ st ≠ ProducerState.Returned)

/-- The nicknames of the producers of a heap that are neither Canceled nor
Returned. -/
def liveNickList (l : List (String × Producer)) : List String :=
  (l.filter (fun kv => notCanceledOrReturned kv.2.state)).map
    (fun kv => kv.2.info.nickName)

/-- The nickname invariant actually maintained by the code: the nickname set
is duplicate-free and is, as a multiset, the nicknames of the producers that
are neither Canceled nor Returned; heap keys stay duplicate-free. -/
def NickInv (s : StateKeyFrame) : Prop :=
  s.nicknames.Nodup ∧ s.nicknames.Perm (liveNickList s.producers) ∧
    (s.producers.map Prod.fst).Nodup

/-- The reorg admissibility check as worded by the claim: true exactly when
`cur − detach − 1 ≤ last_irreversible_height`, or when `detach > 6`, the
latter applying unconditionally before `revert_to_pow_start_height` and only
in DPoS mode at or after it. -/
def isIrreversibleClaim (params : ChainParams) (s : StateKeyFrame)
    (curBlockHeight detachNodesLen : Nat) : Bool :=
  decide (u32sub (u32sub curBlockHeight detachNodesLen) 1 ≤ s.lastIrreversibleHeight) ||
    (decide (IrreversibleHeight < detachNodesLen) &&
      (decide (curBlockHeight < params.revertToPOWStartHeight) ||
        decide (s.consensusAlgorithm = ConsesusAlgorithm.DPOS)))

/-- Chain parameters for the concrete scenarios below. -/
def exParams : ChainParams :=
  { revertToPOWStartHeight := 100
    crcOnlyDPOSHeight := 0
    changeCommitteeNewCRHeight := 1000
    inactivePenalty := 10
    emergencyInactivePenalty := 50
    illegalPenalty := 30
    dposV2EffectiveVotes := 8000 }

/-- An active producer carrying a pending activation request
(`activateRequestHeight = 100`). -/
def exProducer : Producer :=
  { info := { ownerPublicKey := "o1", nodePublicKey := "n1", nickName := "alice",
              stakeUntil := 0 }
    state := ProducerState.Active
    registerHeight := 10
    cancelHeight := 0
    inactiveSince := 0
    activateRequestHeight := 100
    illegalHeight := 0
    penalty := 0
    votes := 0
    dposV2Votes := 0
    detailedDPoSV2Votes := []
    depositAmount := MinDepositAmount
    totalAmount := 0
    depositHash := "deposit:o1"
    selected := false
    randomCandidateInactiveCount := 0
    inactiveCountingHeight := 0
    lastUpdateInactiveHeight := 0
    inactiveCount := 0 }

/-- A frame holding `exProducer` as an active producer, with version window
`[10, 20)`. -/
def exFrame : StateKeyFrame :=
  { initStateKeyFrame with
      producers := [("o1", exProducer)]
      activityKeys := ["o1"]
      nodeOwnerKeys := [("n1", "o1")]
      nicknames := ["alice"]
      versionStartHeight := 10
      versionEndHeight := 20 }

/-- The stored v2 vote record of the renewal scenario: block height 100. -/
def exOldVote : DetailedVoteInfo :=
  { stakeProgramHash := "s1"
    transactionHash := "t0"
    blockHeight := 100
    payloadVersion := 1
    voteType := VoteType.DposV2
    info := { candidate := "c1", votes := 10, lockTime := 8000 } }

/-- A DPoSV2 producer holding `exOldVote` under stake address `s1`. -/
def exV2Producer : Producer :=
  { info := { ownerPublicKey := "c1", nodePublicKey := "n2", nickName := "bob",
              stakeUntil := 600 }
    state := ProducerState.Active
    registerHeight := 10
    cancelHeight := 0
    inactiveSince := 0
    activateRequestHeight := MaxUint32
    illegalHeight := 0
    penalty := 0
    votes := 0
    dposV2Votes := 10
    detailedDPoSV2Votes := [("s1", [(exOldVote, exOldVote)])]
    depositAmount := MinDepositAmount
    totalAmount := 0
    depositHash := "deposit:c1"
    selected := false
    randomCandidateInactiveCount := 0
    inactiveCountingHeight := 0
    lastUpdateInactiveHeight := 0
    inactiveCount := 0 }

/-- A frame holding `exV2Producer` as an active DPoSV2 producer. -/
def exV2Frame : StateKeyFrame :=
  { initStateKeyFrame with
      producers := [("c1", exV2Producer)]
      activityKeys := ["c1"]
      dposV2ActivityKeys := ["c1"]
      nodeOwnerKeys := [("n2", "c1")]
      nicknames := ["bob"] }

/-- A renewal content over `exOldVote` whose new lock time 50 is not above
the stored block height 100. -/
def exRenewalContent : RenewalVotesContent :=
  { referKey := exOldVote
    votesInfo := { candidate := "c1", votes := 10, lockTime := 50 } }

/-- The block sequence of the irreversibility scenario: normal blocks at
100 and 101, a revert to POW at 102, a revert-to-DPoS announcement at 103
with work-height interval 2, then normal blocks through 112. -/
def exModeBlocks : List (Nat × List ModeTx) :=
  [(100, []), (101, []), (102, [ModeTx.revertToPOW]),
   (103, [ModeTx.revertToDPOS 2]), (104, []), (105, []), (106, []),
   (107, []), (108, []), (109, []), (110, []), (111, []), (112, [])]

/-- The register-then-cancel trace of the nickname scenario. -/
def exRegistryOps : List RegistryOp :=
  [RegistryOp.register
      { ownerPublicKey := "o1", nodePublicKey := "n1", nickName := "alice",
        stakeUntil := 0 } 100 [],
   RegistryOp.cancel "o1" 200]

/-- Invariant of the irreversible-height machinery after committing height
`h`: the DPoS start height never runs ahead of the chain, and the last
irreversible height is zero or at least five below the tip. -/
def ModeInv (s : StateKeyFrame) (h : Nat) : Prop :=
  s.dposStartHeight ≤ h ∧
    (s.lastIrreversibleHeight = 0 ∨ s.lastIrreversibleHeight + 5 ≤ h)

/-- Strictly ascending block heights, starting above `h`. -/
def heightsAscendingFrom (h : Nat) : List (Nat × List ModeTx) → Bool
  | [] => true
  | b :: rest => decide (h < b.1) && heightsAscendingFrom b.1 rest

/-- The height of the last block of the list, or `h` when the list is
empty. -/
def lastHeightFrom (h : Nat) (blocks : List (Nat × List ModeTx)) : Nat :=
  blocks.foldl (fun _ b => b.1) h

/-- The v1 votes field of the producer stored under `k`, zero when absent. -/
def producerVotesAt (s : StateKeyFrame) (k : String) : Int :=
  ((mfind s.producers k).map Producer.votes).getD 0

/-- Whether a vote entry resolves, in frame `s`, to the producer stored
under key `k` (the resolution performed by `addProducerVotes`). -/
def voteResolvesTo (s : StateKeyFrame) (k : String) (v : VotesWithLockTime) : Bool :=
  decide (getProducerKey s v.candidate = k) &&
    (getProducerByOwnerPublicKey s (getProducerKey s v.candidate)).isSome

/-- The total votes of the entries of a content resolving to key `k`. -/
def resolvedVotesSum (s : StateKeyFrame) (k : String)
    (l : List VotesWithLockTime) : Int :=
  ((l.filter (voteResolvesTo s k)).map VotesWithLockTime.votes).sum

theorem mfind_mset_self {α β : Type} [DecidableEq α] (l : List (α × β)) (k : α) (v : β) :
    mfind (mset l k v) k = some v := by
  induction l with
  | nil => simp [mset, mfind]
  | cons kv t ih =>
      obtain ⟨k', v'⟩ := kv
      by_cases hk : k' = k
      · subst hk; simp [mset, mfind]
      · simp [mset, hk, mfind, ih]

theorem mfind_mset_ne {α β : Type} [DecidableEq α] (l : List (α × β)) (k a : α) (v : β)
    (h : k ≠ a) : mfind (mset l k v) a = mfind l a := by
  induction l with
  | nil => simp [mset, mfind, h]
  | cons kv t ih =>
      obtain ⟨k', v'⟩ := kv
      by_cases hk : k' = k
      · subst hk; simp [mset, mfind, h]
      · simp [mset, hk, mfind, ih]

theorem mfind_mdel_self {α β : Type} [DecidableEq α] (l : List (α × β)) (k : α) :
    mfind (mdel l k) k = none := by
  induction l with
  | nil => simp [mdel, mfind]
  | cons kv t ih =>
      obtain ⟨k', v'⟩ := kv
      by_cases hk : k' = k
      · simp [mdel, hk, ih]
      · simp [mdel, hk, mfind, ih]

theorem mfind_mdel_ne {α β : Type} [DecidableEq α] (l : List (α × β)) (k a : α)
    (h : k ≠ a) : mfind (mdel l k) a = mfind l a := by
  induction l with
  | nil => simp [mdel]
  | cons kv t ih =>
      obtain ⟨k', v'⟩ := kv
      by_cases hk : k' = k
      · subst hk; simp [mdel, mfind, h, ih]
      · simp [mdel, hk, mfind, ih]

theorem mfind_eq_none_iff {α β : Type} [DecidableEq α] (l : List (α × β)) (k : α) :
    mfind l k = none ↔ k ∉ l.map Prod.fst := by
  induction l with
  | nil => simp [mfind]
  | cons kv t ih =>
      obtain ⟨k', v'⟩ := kv
      by_cases hk : k' = k
      · subst hk; simp [mfind]
      · simp [mfind, hk, ih, Ne.symm hk]

theorem mset_of_not_found {α β : Type} [DecidableEq α] (l : List (α × β)) (k : α)
    (v : β) (h : mfind l k = none) : mset l k v = l ++ [(k, v)] := by
  induction l with
  | nil => simp [mset]
  | cons kv t ih =>
      obtain ⟨k', v'⟩ := kv
      by_cases hk : k' = k
      · subst hk; simp [mfind] at h
      · simp [mfind, hk] at h
        simp [mset, hk, ih h]

theorem map_fst_mset_found {α β : Type} [DecidableEq α] (l : List (α × β)) (k : α)
    (v : β) (h : mfind l k ≠ none) : (mset l k v).map Prod.fst = l.map Prod.fst := by
  induction l with
  | nil => simp [mfind] at h
  | cons kv t ih =>
      obtain ⟨k', v'⟩ := kv
      by_cases hk : k' = k
      · subst hk; simp [mset]
      · simp [mfind, hk] at h
        simp [mset, hk, ih h]

theorem mfind_isSome_iff_mem {α β : Type} [DecidableEq α] (l : List (α × β)) (k : α) :
    (mfind l k).isSome = true ↔ k ∈ l.map Prod.fst := by
  rcases h : mfind l k with _ | v
  · simpa [h] using (mfind_eq_none_iff l k).mp h
  · simp only [Option.isSome_some, true_iff]
    by_contra hmem
    rw [(mfind_eq_none_iff l k).mpr hmem] at h
    exact Option.noConfusion h

theorem mfind_mset_diag {α : Type} [DecidableEq α] (l : List (α × α)) (a b : α)
    (h : mfind l a = some a) : mfind (mset l b b) a = some a := by
  by_cases hba : b = a
  · subst hba; simp [mfind_mset_self]
  · rw [mfind_mset_ne l b a b hba]; exact h

/-- C9 counterexample: the claim states that neither tail step runs for a
RegisterProducer transaction, but the tail of `processTransaction` calls
`processCancelVotes` unconditionally, so it runs for RegisterProducer too. -/
theorem registerProducer_tail_counterexample :
    processTransactionTailSteps TxType.RegisterProducer = [TailStep.processCancelVotes] ∧
    TailStep.processCancelVotes ∈ processTransactionTailSteps TxType.RegisterProducer := by
  constructor
  · rfl
  · decide

/-- C9 amended: `processDeposit` runs exactly for the kinds other than
RegisterProducer, while `processCancelVotes` runs as a tail step of every
transaction kind. -/
theorem processTransaction_tail_steps (t : TxType) :
    (TailStep.processDeposit ∈ processTransactionTailSteps t ↔ t ≠ TxType.RegisterProducer) ∧
    TailStep.processCancelVotes ∈ processTransactionTailSteps t := by
  cases t <;> exact ⟨by decide, by decide⟩

/-- C9 witness at a concrete non-register kind. -/
theorem processTransaction_tail_steps_witness :
    (TailStep.processDeposit ∈ processTransactionTailSteps TxType.Voting ↔
      TxType.Voting ≠ TxType.RegisterProducer) ∧
    TailStep.processCancelVotes ∈ processTransactionTailSteps TxType.Voting :=
  processTransaction_tail_steps TxType.Voting

/-- C7 counterexample: the claim formula ignores the leading
`curBlockHeight <= CRCOnlyDPOSHeight` guard of `IsIrreversible`; at height
50 below that threshold with `last_irreversible_height = 49` the claim
formula answers true while the code answers false. -/
theorem isIrreversible_crcOnly_counterexample :
    IsIrreversible { exParams with crcOnlyDPOSHeight := 100, revertToPOWStartHeight := 1000 }
      { initStateKeyFrame with lastIrreversibleHeight := 49 } 50 0 = false ∧
    isIrreversibleClaim { exParams with crcOnlyDPOSHeight := 100, revertToPOWStartHeight := 1000 }
      { initStateKeyFrame with lastIrreversibleHeight := 49 } 50 0 = true := by
  exact ⟨by decide, by decide⟩

/-- C7 amended: `IsIrreversible` equals the claim formula guarded by the
additional requirement `crc_only_dpos_height < cur_height`; below or at that
height it returns false. -/
theorem isIrreversible_eq_guarded_claim (params : ChainParams) (s : StateKeyFrame)
    (cur detach : Nat) :
    IsIrreversible params s cur detach =
      (decide (params.crcOnlyDPOSHeight < cur) && isIrreversibleClaim params s cur detach) := by
  unfold IsIrreversible isIrreversibleClaim
  by_cases h1 : cur ≤ params.crcOnlyDPOSHeight <;>
    by_cases h2 : u32sub (u32sub cur detach) 1 ≤ s.lastIrreversibleHeight <;>
    by_cases h3 : params.revertToPOWStartHeight ≤ cur <;>
    by_cases h4 : s.consensusAlgorithm = ConsesusAlgorithm.DPOS <;>
    by_cases h5 : IrreversibleHeight < detach <;>
    simp [h1, h2, h3, h4, h5] <;> omega

/-- C8 counterexample: on the emergency path of `setInactiveProducer` the
penalty is added whenever the height is outside the version window, with no
`change_committee_new_cr_height` gate; at height 30, before the gate (1000),
the penalty still grows from 0 to 50. -/
theorem setInactiveProducer_emergency_counterexample :
    ((mfind (setInactiveProducer exParams exFrame "o1" 30 true).producers "o1").map
      Producer.penalty = some 50) ∧
    ((mfind exFrame.producers "o1").map Producer.penalty = some 0) ∧
    ((50 : Int) ≠ 0) ∧
    30 < exParams.changeCommitteeNewCRHeight ∧
    (30 < exFrame.versionStartHeight ∨ exFrame.versionEndHeight ≤ 30) := by
  refine ⟨by decide, by decide, by decide, by decide, by decide⟩

/-- C8 amended: when the producer is set inactive, its penalty grows by
`inactive_penalty` exactly when the height is outside the version window and
at or after `change_committee_new_cr_height` on the regular path, and by
`emergency_inactive_penalty` whenever the height is outside the version
window on the emergency path, the latter without the committee-height gate. -/
theorem setInactiveProducer_penalty (params : ChainParams) (s : StateKeyFrame)
    (key : String) (height : Nat) (emergency : Bool) (p : Producer)
    (hp : mfind s.producers key = some p) :
    (mfind (setInactiveProducer params s key height emergency).producers key).map
      Producer.penalty =
      some (p.penalty +
        (if height < s.versionStartHeight ∨ s.versionEndHeight ≤ height then
          (if emergency then params.emergencyInactivePenalty
           else if params.changeCommitteeNewCRHeight ≤ height then params.inactivePenalty
           else 0)
         else 0)) := by
  unfold setInactiveProducer
  rw [hp]
  simp only
  by_cases hw : height < s.versionStartHeight ∨ s.versionEndHeight ≤ height
  · cases emergency with
    | false =>
        by_cases hc : params.changeCommitteeNewCRHeight ≤ height
        · simp [hw, hc, mfind_mset_self]
        · simp [hw, hc, mfind_mset_self]
    | true => simp [hw, mfind_mset_self]
  · simp [hw, mfind_mset_self]

/-- C8 witness: the emergency scenario instantiated in the amended rule. -/
theorem setInactiveProducer_penalty_witness :
    (mfind (setInactiveProducer exParams exFrame "o1" 30 true).producers "o1").map
      Producer.penalty =
      some (exProducer.penalty +
        (if 30 < exFrame.versionStartHeight ∨ exFrame.versionEndHeight ≤ 30 then
          (if true then exParams.emergencyInactivePenalty
           else if exParams.changeCommitteeNewCRHeight ≤ 30 then exParams.inactivePenalty
           else 0)
         else 0)) :=
  setInactiveProducer_penalty exParams exFrame "o1" 30 true exProducer (by decide)

/-- C1: the undo closures are not exact inverses.  Starting from a frame
whose active producer carries `activateRequestHeight = 100`, running the
illegal-evidence do closure and then its undo leaves every field restored
except `activateRequestHeight`, which is reset to `math.MaxUint32`; the undo
of the activate handler behaves the same way. -/
theorem illegalEvidence_undo_not_inverse :
    (processIllegalEvidenceActiveUndo
        (processIllegalEvidenceActiveDo exParams exFrame "o1" 200) "o1"
        ProducerState.Active 0 0 =
      { exFrame with producers := mset exFrame.producers "o1" { exProducer with activateRequestHeight := MaxUint32 } }) ∧
    ((mfind exFrame.producers "o1").map Producer.activateRequestHeight = some 100) ∧
    MaxUint32 ≠ 100 ∧
    ((mfind (activateProducerUndo (activateProducerDo exFrame "n1" 150) "o1").producers
        "o1").map Producer.activateRequestHeight = some MaxUint32) := by
  refine ⟨by decide, by decide, by decide, by decide⟩

/-- C3: `getDPoSV2Producer` dereferences the container lookup without a nil
check, so a v2 Voting or renewal transaction naming a candidate with no
matching producer does not complete: it hits a nil-pointer dereference,
contradicting the doc comment of the getter and the no-panic rule. -/
theorem votingDposV2_unknown_candidate_nil_deref :
    getDPoSV2Producer initStateKeyFrame "ab" =
      Except.error "nil pointer dereference: produer.info.StakeUntil" ∧
    processVotingContentDposV2 exParams "s1" "t1" 501 0 initStateKeyFrame
      [{ candidate := "ab", votes := 8000, lockTime := 7900 }] =
      Except.error "nil pointer dereference: produer.info.StakeUntil" ∧
    processRenewalVotingContent initStateKeyFrame "s1" "t1" 501 [exRenewalContent] =
      Except.error "nil pointer dereference: produer.info.StakeUntil" := by
  refine ⟨rfl, rfl, rfl⟩

/-- C6 counterexample: the vote of the claimed scenario — height 501,
candidate with `stake_until = 600`, `lock_time = 7700` — is rejected by
`checkDPoSV2Content`, not accepted: the lock time exceeds `stake_until`
(7700 > 600) and the remaining lock period is one block short
(7700 − 501 = 7199 < 7200). -/
theorem checkDPoSV2Content_example_counterexample :
    checkDPoSV2Content 501 [{ candidate := "OK3", votes := 8000, lockTime := 7700 }]
      [("OK3", 600)] 10000 10000 = Except.error "invalid DPoS 2.0 votes lock time" ∧
    (600 : Nat) < 7700 ∧ u32sub 7700 501 < MinVotesLockTime := by
  refine ⟨rfl, by decide, by decide⟩

theorem checkDPoSV2VotesLoop_ok_iff (blockHeight : Nat) (pds : List (String × Nat))
    (l : List VotesWithLockTime) (t : Int) :
    checkDPoSV2VotesLoop blockHeight pds l = Except.ok t ↔
      ((∀ cv ∈ l, ∃ lockUntil, mfind pds cv.candidate = some lockUntil ∧
          cv.lockTime ≤ lockUntil ∧
          MinVotesLockTime ≤ u32sub cv.lockTime blockHeight) ∧
        t = totalVotesOf l) := by
  induction l generalizing t with
  | nil =>
      simp only [checkDPoSV2VotesLoop, totalVotesOf, List.map_nil, List.sum_nil,
        List.not_mem_nil, false_implies, implies_true, true_and]
      constructor
      · intro h; cases h; rfl
      · intro h; rw [h]
  | cons cv rest ih =>
      rcases hf : mfind pds cv.candidate with _ | lu
      · simp only [checkDPoSV2VotesLoop, hf, false_iff]
        constructor
        · intro h; simp at h
        · rintro ⟨hall, -⟩
          rcases hall cv (List.mem_cons_self cv rest) with ⟨lu', hlu', -, -⟩
          rw [hf] at hlu'
          exact Option.noConfusion hlu'
      · by_cases hcond : lu < cv.lockTime ∨ u32sub cv.lockTime blockHeight < MinVotesLockTime
        · simp only [checkDPoSV2VotesLoop, hf, if_pos hcond]
          constructor
          · intro h; simp at h
          · rintro ⟨hall, -⟩
            rcases hall cv (List.mem_cons_self cv rest) with ⟨lu', hlu', hle, hmin⟩
            rw [hf] at hlu'
            cases hlu'
            rcases hcond with hc | hc
            · omega
            · omega
        · simp only [checkDPoSV2VotesLoop, hf, if_neg hcond]
          rcases hr : checkDPoSV2VotesLoop blockHeight pds rest with e | total
          · constructor
            · intro h; simp at h
            · rintro ⟨hall, -⟩
              have htt : checkDPoSV2VotesLoop blockHeight pds rest =
                  Except.ok (totalVotesOf rest) :=
                (ih (totalVotesOf rest)).mpr
                  ⟨fun x hx => hall x (List.mem_cons_of_mem cv hx), rfl⟩
              rw [hr] at htt
              exact Except.noConfusion htt
          · have hrest := (ih total).mp hr
            constructor
            · intro h
              have ht : t = cv.votes + total := by
                cases h; rfl
              refine ⟨?_, ?_⟩
              · intro x hx
                rcases List.mem_cons.mp hx with hx1 | hx2
                · subst hx1
                  exact ⟨lu, hf, by omega, by omega⟩
                · exact hrest.1 x hx2
              · rw [ht, hrest.2]
                simp [totalVotesOf]
            · rintro ⟨-, ht⟩
              have : t = cv.votes + total := by
                rw [ht, hrest.2]
                simp [totalVotesOf]
              rw [this]

/-- C6 amended: a DposV2 content passes `checkDPoSV2Content` exactly when
every vote names a registered DPoSV2 candidate, respects
`lock_time ≤ stake_until` and keeps a wrapped lock period of at least 7200
blocks, and the vote total stays within the output value and the available
vote rights; the claimed concrete scenario is repaired by evaluating at
height 500 against a candidate whose `stake_until` is 7700, where lock time
7700 is accepted and 7699 is rejected. -/
theorem checkDPoSV2Content_lock_time_rule :
    (∀ (blockHeight : Nat) (votesInfo : List VotesWithLockTime)
        (pds : List (String × Nat)) (outputValue voteRights : Int),
      checkDPoSV2Content blockHeight votesInfo pds outputValue voteRights = Except.ok () ↔
        ((∀ cv ∈ votesInfo, ∃ lockUntil, mfind pds cv.candidate = some lockUntil ∧
            cv.lockTime ≤ lockUntil ∧
            MinVotesLockTime ≤ u32sub cv.lockTime blockHeight) ∧
          totalVotesOf votesInfo ≤ outputValue ∧ totalVotesOf votesInfo ≤ voteRights)) ∧
    checkDPoSV2Content 500 [{ candidate := "OK3", votes := 8000, lockTime := 7700 }]
      [("OK3", 7700)] 10000 10000 = Except.ok () ∧
    checkDPoSV2Content 500 [{ candidate := "OK3", votes := 8000, lockTime := 7699 }]
      [("OK3", 7700)] 10000 10000 = Except.error "invalid DPoS 2.0 votes lock time" := by
  refine ⟨?_, rfl, rfl⟩
  intro blockHeight votesInfo pds outputValue voteRights
  unfold checkDPoSV2Content
  rcases hl : checkDPoSV2VotesLoop blockHeight pds votesInfo with e | total
  · constructor
    · intro h; simp at h
    · rintro ⟨hall, -, -⟩
      have htt : checkDPoSV2VotesLoop blockHeight pds votesInfo =
          Except.ok (totalVotesOf votesInfo) :=
        (checkDPoSV2VotesLoop_ok_iff blockHeight pds votesInfo
          (totalVotesOf votesInfo)).mpr ⟨hall, rfl⟩
      rw [hl] at htt
      exact Except.noConfusion htt
  · have hrest := (checkDPoSV2VotesLoop_ok_iff blockHeight pds votesInfo total).mp hl
    by_cases hout : outputValue < total
    · simp only [if_pos hout]
      constructor
      · intro h; simp at h
      · rintro ⟨-, hle, -⟩
        rw [← hrest.2] at hle
        omega
    · by_cases hrights : voteRights < total
      · simp only [if_neg hout, if_pos hrights]
        constructor
        · intro h; simp at h
        · rintro ⟨-, -, hle⟩
          rw [← hrest.2] at hle
          omega
      · simp only [if_neg hout, if_neg hrights]
        constructor
        · intro _
          exact ⟨hrest.1, by rw [← hrest.2]; omega, by rw [← hrest.2]; omega⟩
        · intro _; trivial

/-- C5 counterexample: the renewal context check accepts a renewal whose new
lock time 50 is not strictly greater than the stored block height 100 — the
source rejects only when `vote.BlockHeight < content.VotesInfo.LockTime`, so
acceptance requires `lock_time ≤ block_height`, the opposite of the claimed
strict greater-than relation. -/
theorem specialContextCheckRenewal_lockTime_counterexample :
    specialContextCheckRenewal exV2Producer "s1" exRenewalContent = Except.ok () ∧
    ¬ (exOldVote.blockHeight < exRenewalContent.votesInfo.lockTime) := by
  exact ⟨rfl, by decide⟩

/-- C5 amended: a renewal content passes the check exactly when the stored
record has vote type DposV2, the new lock time is at most (not greater than)
the stored block height, and votes and candidate are unchanged; on success
the state engine inserts the rebuilt detail under its new refer key and
removes the old one. -/
theorem processRenewalVotingContent_rule (p : Producer) (stake : String)
    (content : RenewalVotesContent) (vote : DetailedVoteInfo)
    (hfound : GetDetailedDPoSV2Votes p stake content.referKey = some vote) :
    (specialContextCheckRenewal p stake content = Except.ok () ↔
      (vote.voteType = VoteType.DposV2 ∧
        content.votesInfo.lockTime ≤ vote.blockHeight ∧
        vote.info.votes = content.votesInfo.votes ∧
        vote.info.candidate = content.votesInfo.candidate)) ∧
    (∀ (s : StateKeyFrame) (txHash : String) (height : Nat),
      getDPoSV2Producer s content.votesInfo.candidate = Except.ok (some p) →
      ({ stakeProgramHash := stake, transactionHash := txHash,
         blockHeight := vote.blockHeight, payloadVersion := vote.payloadVersion,
         voteType := VoteType.DposV2, info := content.votesInfo } : DetailedVoteInfo) ≠
        content.referKey →
      ∃ s', processRenewalVotingContentOne s stake txHash height content = Except.ok s' ∧
        ∃ p', mfind s'.producers (getProducerKey s content.votesInfo.candidate) = some p' ∧
          GetDetailedDPoSV2Votes p' stake
              { stakeProgramHash := stake, transactionHash := txHash,
                blockHeight := vote.blockHeight, payloadVersion := vote.payloadVersion,
                voteType := VoteType.DposV2, info := content.votesInfo } =
            some { stakeProgramHash := stake, transactionHash := txHash,
                   blockHeight := vote.blockHeight, payloadVersion := vote.payloadVersion,
                   voteType := VoteType.DposV2, info := content.votesInfo } ∧
          GetDetailedDPoSV2Votes p' stake content.referKey = none) := by
  constructor
  · unfold specialContextCheckRenewal GetDetailDPoSV2Votes
    rw [hfound]
    by_cases h1 : vote.voteType = VoteType.DposV2 <;>
      by_cases h2 : vote.blockHeight < content.votesInfo.lockTime <;>
      by_cases h3 : vote.info.votes = content.votesInfo.votes <;>
      by_cases h4 : vote.info.candidate = content.votesInfo.candidate <;>
      simp [h1, h2, h3, h4] <;> omega
  · intro s txHash height hres hne
    unfold processRenewalVotingContentOne
    rw [hres]
    simp only [hfound, Option.getD_some]
    refine ⟨_, rfl, _, mfind_mset_self _ _ _, ?_, ?_⟩
    · unfold GetDetailedDPoSV2Votes
      simp only [mfind_mset_self, Option.getD_some]
      rw [mfind_mdel_ne _ _ _ (Ne.symm hne)]
      · exact mfind_mset_self _ _ _
    · unfold GetDetailedDPoSV2Votes
      simp only [mfind_mset_self, Option.getD_some]
      exact mfind_mdel_self _ _

/-- C5 witness: the concrete renewal scenario passes the amended check. -/
theorem processRenewalVotingContent_rule_witness :
    specialContextCheckRenewal exV2Producer "s1" exRenewalContent = Except.ok () :=
  ((processRenewalVotingContent_rule exV2Producer "s1" exRenewalContent exOldVote
    (by decide)).1).mpr (by decide)

/-- C4 counterexample: along a reachable trace — init at 100, revert to POW
at 102, revert-to-DPoS announced at 103 with work height 105 — the sixth
DPoS block after the POW-to-DPoS transition (height 112) advances
`last_irreversible_height` to 107, violating the claimed bound
`last_irreversible_height ≤ height − 6` (107 > 112 − 6). -/
theorem lastIrreversible_transition_counterexample :
    exParams.revertToPOWStartHeight ≤ 112 ∧
    (runModeBlocks exParams initStateKeyFrame exModeBlocks).lastIrreversibleHeight = 107 ∧
    ¬ ((runModeBlocks exParams initStateKeyFrame exModeBlocks).lastIrreversibleHeight +
        IrreversibleHeight ≤ 112) := by
  refine ⟨by decide, by decide, by decide⟩

theorem applyModeTx_heights (height : Nat) (s : StateKeyFrame) (t : ModeTx) :
    (applyModeTx height s t).lastIrreversibleHeight = s.lastIrreversibleHeight ∧
    (applyModeTx height s t).dposStartHeight = s.dposStartHeight := by
  cases t <;> exact ⟨rfl, rfl⟩

theorem foldModeTxs_heights (height : Nat) (txs : List ModeTx) (s : StateKeyFrame) :
    (txs.foldl (applyModeTx height) s).lastIrreversibleHeight = s.lastIrreversibleHeight ∧
    (txs.foldl (applyModeTx height) s).dposStartHeight = s.dposStartHeight := by
  induction txs generalizing s with
  | nil => exact ⟨rfl, rfl⟩
  | cons t ts ih =>
      simp only [List.foldl_cons]
      rcases applyModeTx_heights height s t with ⟨h1, h2⟩
      rcases ih (applyModeTx height s t) with ⟨h3, h4⟩
      exact ⟨by rw [h3, h1], by rw [h4, h2]⟩

theorem revertToDPOSEndOfBlock_heights (s : StateKeyFrame) (height : Nat) :
    (revertToDPOSEndOfBlock s height).lastIrreversibleHeight = s.lastIrreversibleHeight ∧
    (revertToDPOSEndOfBlock s height).dposStartHeight = s.dposStartHeight := by
  unfold revertToDPOSEndOfBlock
  split_ifs <;> exact ⟨rfl, rfl⟩

theorem tryUpdate_ModeInv (params : ChainParams) (s : StateKeyFrame) (h : Nat)
    (hstart : 6 ≤ params.revertToPOWStartHeight) (hinv : ModeInv s h) :
    ModeInv (tryUpdateLastIrreversibleHeight params s h) h := by
  obtain ⟨hdsh, hlih⟩ := hinv
  unfold tryUpdateLastIrreversibleHeight
  by_cases hb : h < params.revertToPOWStartHeight
  · simp only [if_pos hb]; exact ⟨hdsh, hlih⟩
  · simp only [if_neg hb]
    by_cases h0 : s.lastIrreversibleHeight = 0
    · simp only [if_pos h0]
      have h6 : 6 ≤ h := le_trans hstart (Nat.le_of_not_lt hb)
      have hu : u32sub h IrreversibleHeight = h - 6 := by
        unfold u32sub IrreversibleHeight
        rw [if_pos (by omega)]
      refine ⟨?_, ?_⟩
      · simp only [hu]; omega
      · simp only [hu]; omega
    · simp only [if_neg h0]
      by_cases hd : s.consensusAlgorithm = ConsesusAlgorithm.DPOS
      · simp only [if_pos hd]
        by_cases ht : s.dposWorkHeight ≠ 0 ∧ h = s.dposWorkHeight + 1
        · simp only [if_pos ht]
          by_cases hadv : IrreversibleHeight ≤ u32sub h h
          · simp only [if_pos hadv]
            have hu : u32sub h h = 0 := by unfold u32sub; rw [if_pos (le_refl h)]; omega
            rw [hu] at hadv
            simp [IrreversibleHeight] at hadv
          · simp only [if_neg hadv]
            exact ⟨le_refl h, hlih⟩
        · simp only [if_neg ht]
          by_cases hadv : IrreversibleHeight ≤ u32sub h s.dposStartHeight
          · simp only [if_pos hadv]
            have hu : u32sub h s.dposStartHeight = h - s.dposStartHeight := by
              unfold u32sub; rw [if_pos hdsh]
            rw [hu] at hadv
            simp only [IrreversibleHeight] at hadv
            constructor
            · show s.dposStartHeight + 1 ≤ h
              omega
            · show s.dposStartHeight + 1 = 0 ∨ s.dposStartHeight + 1 + 5 ≤ h
              omega
          · simp only [if_neg hadv]
            exact ⟨hdsh, hlih⟩
      · simp only [if_neg hd]
        exact ⟨hdsh, hlih⟩

theorem processBlockMode_ModeInv (params : ChainParams) (s : StateKeyFrame)
    (hprev h : Nat) (txs : List ModeTx)
    (hstart : 6 ≤ params.revertToPOWStartHeight)
    (hinv : ModeInv s hprev) (hlt : hprev < h) :
    ModeInv (processBlockMode params s h txs) h := by
  unfold processBlockMode
  apply tryUpdate_ModeInv params _ h hstart
  rcases foldModeTxs_heights h txs s with ⟨hf1, hf2⟩
  rcases revertToDPOSEndOfBlock_heights (txs.foldl (applyModeTx h) s) h with ⟨hr1, hr2⟩
  obtain ⟨hdsh, hlih⟩ := hinv
  constructor
  · rw [hr2, hf2]; omega
  · rw [hr1, hf1]; omega

theorem runModeBlocks_ModeInv (params : ChainParams)
    (blocks : List (Nat × List ModeTx)) (s : StateKeyFrame) (hprev : Nat)
    (hstart : 6 ≤ params.revertToPOWStartHeight) (hinv : ModeInv s hprev)
    (hasc : heightsAscendingFrom hprev blocks = true) :
    ModeInv (runModeBlocks params s blocks) (lastHeightFrom hprev blocks) := by
  induction blocks generalizing s hprev with
  | nil => exact hinv
  | cons b bs ih =>
      simp only [heightsAscendingFrom, Bool.and_eq_true, decide_eq_true_eq] at hasc
      have hstep := processBlockMode_ModeInv params s hprev b.1 b.2 hstart hinv hasc.1
      exact ih (processBlockMode params s b.1 b.2) b.1 hstep hasc.2

/-- C4 amended: along every chain of blocks with strictly ascending heights
reaching `revert_to_pow_start_height`, the invariant actually maintained is
`last_irreversible_height ≤ height − 5`: the bound `height − 6` of the claim
can be exceeded by one in the sixth block after a POW-to-DPoS transition. -/
theorem lastIrreversible_bound (params : ChainParams)
    (blocks : List (Nat × List ModeTx))
    (hstart : 6 ≤ params.revertToPOWStartHeight)
    (hasc : heightsAscendingFrom 0 blocks = true)
    (hreach : params.revertToPOWStartHeight ≤ lastHeightFrom 0 blocks) :
    (runModeBlocks params initStateKeyFrame blocks).lastIrreversibleHeight + 5 ≤
      lastHeightFrom 0 blocks := by
  have hinv := runModeBlocks_ModeInv params blocks initStateKeyFrame 0 hstart
    ⟨Nat.le_refl 0, Or.inl rfl⟩ hasc
  rcases hinv.2 with h0 | h5
  · rw [h0]; omega
  · exact h5

/-- C4 witness: the concrete transition trace satisfies the amended bound
with equality at the violating height (107 + 5 = 112). -/
theorem lastIrreversible_bound_witness :
    (runModeBlocks exParams initStateKeyFrame exModeBlocks).lastIrreversibleHeight + 5 ≤
      lastHeightFrom 0 exModeBlocks :=
  lastIrreversible_bound exParams exModeBlocks (by decide) (by decide) (by decide)

theorem getProducerByOwnerPublicKey_eq_find (s : StateKeyFrame) (key : String)
    (p : Producer) (h : getProducerByOwnerPublicKey s key = some p) :
    mfind s.producers key = some p := by
  unfold getProducerByOwnerPublicKey at h
  split_ifs at h <;> first | exact h | exact Option.noConfusion h

theorem addProducerVotes_static (s : StateKeyFrame) (v : VotesWithLockTime) :
    (addProducerVotes s v).nodeOwnerKeys = s.nodeOwnerKeys ∧
    (addProducerVotes s v).activityKeys = s.activityKeys ∧
    (addProducerVotes s v).canceledKeys = s.canceledKeys ∧
    (addProducerVotes s v).illegalKeys = s.illegalKeys ∧
    (addProducerVotes s v).pendingKeys = s.pendingKeys ∧
    (addProducerVotes s v).inactiveKeys = s.inactiveKeys ∧
    (addProducerVotes s v).producers.map Prod.fst = s.producers.map Prod.fst ∧
    (addProducerVotes s v).dposVotes = s.dposVotes ∧
    (addProducerVotes s v).detailDPoSV1Votes = s.detailDPoSV1Votes := by
  simp only [addProducerVotes]
  rcases hr : getProducerByOwnerPublicKey s (getProducerKey s v.candidate) with _ | p
  · simp [hr]
  · have hf := getProducerByOwnerPublicKey_eq_find s _ p hr
    simp only [hr]
    refine ⟨?_, ?_, ?_, ?_, ?_, ?_, ?_, ?_, ?_⟩ <;>
      first
        | trivial
        | exact map_fst_mset_found _ _ _ (by rw [hf]; exact fun hh => Option.noConfusion hh)

theorem mfind_isSome_congr {α β : Type} [DecidableEq α] (l1 l2 : List (α × β))
    (hp : l1.map Prod.fst = l2.map Prod.fst) (key : α) :
    (mfind l1 key).isSome = (mfind l2 key).isSome := by
  by_cases hm : key ∈ l2.map Prod.fst
  · rw [(mfind_isSome_iff_mem l1 key).mpr (by rw [hp]; exact hm),
      (mfind_isSome_iff_mem l2 key).mpr hm]
  · have h1 : ¬(mfind l1 key).isSome = true := fun hh =>
      hm (by rw [← hp]; exact (mfind_isSome_iff_mem _ _).mp hh)
    have h2 : ¬(mfind l2 key).isSome = true := fun hh =>
      hm ((mfind_isSome_iff_mem _ _).mp hh)
    simp only [Bool.not_eq_true] at h1 h2
    rw [h1, h2]

theorem voteResolvesTo_addProducerVotes (s : StateKeyFrame) (v : VotesWithLockTime)
    (k : String) (x : VotesWithLockTime) :
    voteResolvesTo (addProducerVotes s v) k x = voteResolvesTo s k x := by
  obtain ⟨hn, ha, hc, hi, hpe, hin, hpf, -, -⟩ := addProducerVotes_static s v
  have hkey : ∀ c, getProducerKey (addProducerVotes s v) c = getProducerKey s c := by
    intro c; unfold getProducerKey; rw [hn]
  have hsome : ∀ key, (getProducerByOwnerPublicKey (addProducerVotes s v) key).isSome =
      (getProducerByOwnerPublicKey s key).isSome := by
    intro key
    unfold getProducerByOwnerPublicKey
    rw [ha, hc, hi, hpe, hin]
    split_ifs <;> first | exact mfind_isSome_congr _ _ hpf key | rfl
  unfold voteResolvesTo
  rw [hkey, hsome]

theorem producerVotesAt_addProducerVotes (s : StateKeyFrame) (v : VotesWithLockTime)
    (k : String) :
    producerVotesAt (addProducerVotes s v) k =
      producerVotesAt s k + (if voteResolvesTo s k v then v.votes else 0) := by
  unfold addProducerVotes producerVotesAt voteResolvesTo
  rcases hr : getProducerByOwnerPublicKey s (getProducerKey s v.candidate) with _ | p
  · simp [hr]
  · have hf := getProducerByOwnerPublicKey_eq_find s _ p hr
    by_cases hk : getProducerKey s v.candidate = k
    · subst hk
      simp [hr, mfind_mset_self, hf]
    · simp [hr, hk, mfind_mset_ne _ _ _ _ hk]

theorem resolvedVotesSum_addProducerVotes (s : StateKeyFrame) (v : VotesWithLockTime)
    (k : String) (t : List VotesWithLockTime) :
    resolvedVotesSum (addProducerVotes s v) k t = resolvedVotesSum s k t := by
  unfold resolvedVotesSum
  have : t.filter (voteResolvesTo (addProducerVotes s v) k) = t.filter (voteResolvesTo s k) := by
    apply List.filter_congr
    intro x _
    exact voteResolvesTo_addProducerVotes s v k x
  rw [this]

theorem foldAddProducerVotes (l : List VotesWithLockTime) (s : StateKeyFrame)
    (k : String) :
    producerVotesAt (l.foldl addProducerVotes s) k =
      producerVotesAt s k + resolvedVotesSum s k l := by
  induction l generalizing s with
  | nil => simp [resolvedVotesSum]
  | cons v t ih =>
      simp only [List.foldl_cons]
      rw [ih (addProducerVotes s v), producerVotesAt_addProducerVotes,
        resolvedVotesSum_addProducerVotes]
      unfold resolvedVotesSum
      rw [List.filter_cons]
      by_cases hv : voteResolvesTo s k v
      · simp only [hv, if_pos, List.map_cons, List.sum_cons]
        omega
      · simp only [hv, Bool.false_eq_true, if_neg, if_false]
        omega

theorem mfind_foldl_diag_preserve (t : List VotesWithLockTime)
    (m : List (DetailedVoteInfo × DetailedVoteInfo))
    (g : VotesWithLockTime → DetailedVoteInfo) (a : DetailedVoteInfo)
    (h : mfind m a = some a) :
    mfind (t.foldl (fun m x => mset m (g x) (g x)) m) a = some a := by
  induction t generalizing m with
  | nil => exact h
  | cons x ts ih => exact ih _ (mfind_mset_diag _ _ _ h)

theorem mfind_foldl_diag (l : List VotesWithLockTime)
    (m0 : List (DetailedVoteInfo × DetailedVoteInfo))
    (g : VotesWithLockTime → DetailedVoteInfo) (v : VotesWithLockTime) (hv : v ∈ l) :
    mfind (l.foldl (fun m x => mset m (g x) (g x)) m0) (g v) = some (g v) := by
  induction l generalizing m0 with
  | nil => cases hv
  | cons x t ih =>
      simp only [List.foldl_cons]
      rcases List.mem_cons.mp hv with h | h
      · subst h
        exact mfind_foldl_diag_preserve t _ g (g v) (mfind_mset_self _ _ _)
      · exact ih _ h

theorem detailFold_proj (l : List VotesWithLockTime) (s2 : StateKeyFrame)
    (g : VotesWithLockTime → DetailedVoteInfo) :
    ((l.foldl (fun st vote =>
        { st with detailDPoSV1Votes := mset st.detailDPoSV1Votes (g vote) (g vote) }) s2).detailDPoSV1Votes =
      l.foldl (fun m vote => mset m (g vote) (g vote)) s2.detailDPoSV1Votes) ∧
    ((l.foldl (fun st vote =>
        { st with detailDPoSV1Votes := mset st.detailDPoSV1Votes (g vote) (g vote) }) s2).producers =
      s2.producers) ∧
    ((l.foldl (fun st vote =>
        { st with detailDPoSV1Votes := mset st.detailDPoSV1Votes (g vote) (g vote) }) s2).dposVotes =
      s2.dposVotes) := by
  induction l generalizing s2 with
  | nil => exact ⟨rfl, rfl, rfl⟩
  | cons x t ih =>
      simp only [List.foldl_cons]
      rcases ih { s2 with detailDPoSV1Votes := mset s2.detailDPoSV1Votes (g x) (g x) } with
        ⟨h1, h2, h3⟩
      exact ⟨h1, h2, h3⟩

theorem foldAddProducerVotes_static (l : List VotesWithLockTime) (s : StateKeyFrame) :
    ((l.foldl addProducerVotes s).dposVotes = s.dposVotes) ∧
    ((l.foldl addProducerVotes s).detailDPoSV1Votes = s.detailDPoSV1Votes) := by
  induction l generalizing s with
  | nil => exact ⟨rfl, rfl⟩
  | cons v t ih =>
      simp only [List.foldl_cons]
      obtain ⟨-, -, -, -, -, -, -, h8, h9⟩ := addProducerVotes_static s v
      rcases ih (addProducerVotes s v) with ⟨h1, h2⟩
      exact ⟨by rw [h1, h8], by rw [h2, h9]⟩

theorem mfindD_madd_self {α : Type} [DecidableEq α] (l : List (α × Int)) (k : α)
    (v : Int) : mfindD (madd l k v) k = mfindD l k + v := by
  unfold madd mfindD
  rw [mfind_mset_self]
  rfl

/-- C10: processing a Delegate voting content adds the maximum votes value of
the content to the per-stake `DposVotes` tally, records a `DetailedVoteInfo`
for every vote entry of the content — including entries whose candidate
resolves to no registered producer — and adds to each producer exactly the
votes of the entries that resolve to it, so only the per-producer additions
are skipped for unknown candidates. -/
theorem processVotingContentDelegate_spec (s : StateKeyFrame) (stake txHash : String)
    (height pv : Nat) (votesInfo : List VotesWithLockTime) :
    (mfindD (processVotingContentDelegate s stake txHash height pv votesInfo).dposVotes
        stake = mfindD s.dposVotes stake + maxVotesOf votesInfo) ∧
    (∀ v ∈ votesInfo,
      mfind (processVotingContentDelegate s stake txHash height pv votesInfo).detailDPoSV1Votes
          (mkDetailedVoteInfo stake txHash height pv VoteType.Delegate v) =
        some (mkDetailedVoteInfo stake txHash height pv VoteType.Delegate v)) ∧
    (∀ k, producerVotesAt (processVotingContentDelegate s stake txHash height pv votesInfo) k =
      producerVotesAt s k + resolvedVotesSum s k votesInfo) := by
  unfold processVotingContentDelegate
  obtain ⟨hd1, hd2, hd3⟩ := detailFold_proj votesInfo
    (votesInfo.foldl addProducerVotes
      { s with dposVotes := madd s.dposVotes stake (maxVotesOf votesInfo) })
    (mkDetailedVoteInfo stake txHash height pv VoteType.Delegate)
  obtain ⟨hf1, hf2⟩ := foldAddProducerVotes_static votesInfo
    { s with dposVotes := madd s.dposVotes stake (maxVotesOf votesInfo) }
  refine ⟨?_, ?_, ?_⟩
  · rw [hd3, hf1]
    exact mfindD_madd_self _ _ _
  · intro v hv
    rw [hd1, hf2]
    exact mfind_foldl_diag votesInfo _ _ v hv
  · intro k
    unfold producerVotesAt
    rw [hd2]
    exact foldAddProducerVotes votesInfo _ k

/-- C10 witness: the rule instantiated on a content naming one known and one
unknown candidate over the example frame. -/
theorem processVotingContentDelegate_spec_witness :
    mfindD (processVotingContentDelegate exFrame "s1" "t1" 300 0
        [{ candidate := "n1", votes := 1000, lockTime := 0 },
         { candidate := "zz", votes := 400, lockTime := 0 }]).dposVotes "s1" =
      mfindD exFrame.dposVotes "s1" +
        maxVotesOf [{ candidate := "n1", votes := 1000, lockTime := 0 },
         { candidate := "zz", votes := 400, lockTime := 0 }] :=
  (processVotingContentDelegate_spec exFrame "s1" "t1" 300 0
    [{ candidate := "n1", votes := 1000, lockTime := 0 },
     { candidate := "zz", votes := 400, lockTime := 0 }]).1

/-- C2 counterexample: after a register followed by a cancel, the producer is
in the Canceled (not Returned) state, yet its nickname is no longer in the
nickname set — `cancelProducer` deletes the nickname at cancel time, so a
Canceled-but-not-Returned producer has no nickname in the set, contrary to
the claim. -/
theorem nickname_canceled_counterexample :
    ((mfind (runRegistry exRegistryOps).producers "o1").map Producer.state =
      some ProducerState.Canceled) ∧
    (ProducerState.Canceled ≠ ProducerState.Returned) ∧
    ¬ ("alice" ∈ (runRegistry exRegistryOps).nicknames) := by
  refine ⟨by decide, by decide, by decide⟩

theorem smem_iff (l : List String) (x : String) : smem l x = true ↔ x ∈ l := by
  simp [smem, List.contains_iff_exists_mem_beq]

theorem liveNickList_cons (k : String) (p : Producer) (t : List (String × Producer)) :
    liveNickList ((k, p) :: t) =
      if notCanceledOrReturned p.state then p.info.nickName :: liveNickList t
      else liveNickList t := by
  unfold liveNickList
  rw [List.filter_cons]
  split_ifs with h <;> simp [h]

theorem liveNickList_append (l1 l2 : List (String × Producer)) :
    liveNickList (l1 ++ l2) = liveNickList l1 ++ liveNickList l2 := by
  unfold liveNickList
  rw [List.filter_append, List.map_append]

theorem nick_mem_liveNickList (l : List (String × Producer)) (k : String) (p : Producer)
    (hf : mfind l k = some p) (hlive : notCanceledOrReturned p.state = true) :
    p.info.nickName ∈ liveNickList l := by
  induction l with
  | nil => simp [mfind] at hf
  | cons kv t ih =>
      obtain ⟨k0, v0⟩ := kv
      by_cases hk : k0 = k
      · subst hk
        simp only [mfind, if_pos rfl] at hf
        cases hf
        rw [liveNickList_cons]
        simp [hlive]
      · simp only [mfind, if_neg hk] at hf
        rw [liveNickList_cons]
        split_ifs with h
        · exact List.mem_cons_of_mem _ (ih hf)
        · exact ih hf

theorem count_liveNickList_mset (l : List (String × Producer)) (k : String)
    (p p' : Producer) (hn : (l.map Prod.fst).Nodup) (hf : mfind l k = some p)
    (x : String) :
    (liveNickList (mset l k p')).count x +
      (if notCanceledOrReturned p.state = true ∧ p.info.nickName = x then 1 else 0) =
    (liveNickList l).count x +
      (if notCanceledOrReturned p'.state = true ∧ p'.info.nickName = x then 1 else 0) := by
  induction l with
  | nil => simp [mfind] at hf
  | cons kv t ih =>
      obtain ⟨k0, v0⟩ := kv
      by_cases hk : k0 = k
      · subst hk
        simp only [mfind, if_pos rfl] at hf
        cases hf
        have hm : mset ((k0, p) :: t) k0 p' = (k0, p') :: t := by simp [mset]
        rw [hm, liveNickList_cons, liveNickList_cons]
        by_cases hp : notCanceledOrReturned p.state = true <;>
          by_cases hp' : notCanceledOrReturned p'.state = true <;>
          by_cases hx : p.info.nickName = x <;>
          by_cases hx' : p'.info.nickName = x <;>
          simp [hp, hp', hx, hx', List.count_cons] <;>
          omega
      · simp only [mfind, if_neg hk] at hf
        simp only [List.map_cons, List.nodup_cons] at hn
        simp only [mset, if_neg hk]
        rw [liveNickList_cons, liveNickList_cons]
        have := ih hn.2 hf
        by_cases hv : notCanceledOrReturned v0.state = true <;>
          by_cases hvx : v0.info.nickName = x <;>
          simp [hv, hvx, List.count_cons] <;>
          omega

theorem count_sdel (l : List String) (y x : String) :
    (sdel l y).count x = if x = y then 0 else l.count x := by
  induction l with
  | nil => simp [sdel]
  | cons a t ih =>
      by_cases ha : a = y <;> by_cases hxy : x = y <;>
        simp_all [sdel, List.filter_cons, List.count_cons]

theorem two_le_count_liveNickList (l : List (String × Producer))
    (hn : (l.map Prod.fst).Nodup) (k1 k2 : String) (p1 p2 : Producer)
    (h1 : mfind l k1 = some p1) (h2 : mfind l k2 = some p2) (hk : k1 ≠ k2)
    (hl1 : notCanceledOrReturned p1.state = true)
    (hl2 : notCanceledOrReturned p2.state = true)
    (heq : p1.info.nickName = p2.info.nickName) :
    2 ≤ (liveNickList l).count p1.info.nickName := by
  induction l with
  | nil => simp [mfind] at h1
  | cons kv t ih =>
      obtain ⟨k0, v0⟩ := kv
      simp only [List.map_cons, List.nodup_cons] at hn
      by_cases ha : k0 = k1
      · subst ha
        simp only [mfind, if_pos rfl] at h1
        cases h1
        simp only [mfind, if_neg hk] at h2
        have hmem := nick_mem_liveNickList t k2 p2 h2 hl2
        rw [liveNickList_cons, if_pos hl1, List.count_cons]
        have h0 : 0 < (liveNickList t).count p1.info.nickName := by
          rw [heq]
          exact List.count_pos_iff.mpr hmem
        simp only [beq_self_eq_true, if_true]
        omega
      · by_cases hb : k0 = k2
        · subst hb
          simp only [mfind, if_pos rfl] at h2
          cases h2
          simp only [mfind, if_neg ha] at h1
          have hmem := nick_mem_liveNickList t k1 p1 h1 hl1
          have h0 : 0 < (liveNickList t).count p1.info.nickName :=
            List.count_pos_iff.mpr hmem
          rw [heq] at h0
          rw [liveNickList_cons, if_pos hl2, List.count_cons, heq]
          simp only [beq_self_eq_true, if_true]
          omega
        · simp only [mfind, if_neg ha] at h1
          simp only [mfind, if_neg hb] at h2
          have := ih hn.2 h1 h2
          rw [liveNickList_cons]
          split_ifs with h
          · rw [List.count_cons]
            omega
          · exact this

theorem sinsert_of_not_mem (l : List String) (x : String) (h : x ∉ l) :
    sinsert l x = x :: l := by
  unfold sinsert
  rw [if_neg (fun hc => h ((smem_iff l x).mp hc))]

theorem notCanceledOrReturned_of_cancelable (st : ProducerState)
    (h : st = ProducerState.Pending ∨ st = ProducerState.Active ∨
      st = ProducerState.Inactive) : notCanceledOrReturned st = true := by
  rcases h with h | h | h <;> rw [h] <;> decide

theorem liveNickList_nil : liveNickList [] = [] := rfl

theorem NickInv_register_aux (s : StateKeyFrame) (owner : String) (P : Producer)
    (hP : notCanceledOrReturned P.state = true)
    (hfreshOwner : mfind s.producers owner = none)
    (hfreshNick : P.info.nickName ∉ s.nicknames)
    (hnodup : s.nicknames.Nodup)
    (hperm : s.nicknames.Perm (liveNickList s.producers))
    (hkeys : (s.producers.map Prod.fst).Nodup) :
    (P.info.nickName :: s.nicknames).Nodup ∧
    (P.info.nickName :: s.nicknames).Perm (liveNickList (mset s.producers owner P)) ∧
    ((mset s.producers owner P).map Prod.fst).Nodup := by
  refine ⟨List.nodup_cons.mpr ⟨hfreshNick, hnodup⟩, ?_, ?_⟩
  · rw [mset_of_not_found _ _ _ hfreshOwner, liveNickList_append, liveNickList_cons,
      if_pos hP, liveNickList_nil]
    exact (hperm.cons P.info.nickName).trans
      (List.perm_append_singleton P.info.nickName (liveNickList s.producers)).symm
  · rw [mset_of_not_found _ _ _ hfreshOwner, List.map_append]
    refine hkeys.append (List.nodup_singleton _) ?_
    intro a ha hb
    simp only [List.map_cons, List.map_nil, List.mem_singleton] at hb
    subst hb
    exact ((mfind_eq_none_iff _ _).mp hfreshOwner) ha

theorem cancelProducer_proj (s : StateKeyFrame) (owner : String) (height : Nat)
    (p : Producer) (hgp : getProducer s owner = some p) :
    (cancelProducer s owner height).nicknames = sdel s.nicknames p.info.nickName ∧
    (cancelProducer s owner height).producers =
      mset s.producers owner
        { p with state := ProducerState.Canceled, cancelHeight := height } := by
  simp only [cancelProducer, hgp]
  cases hstate : p.state <;> simp [hstate]

theorem NickInv_step (s : StateKeyFrame) (op : RegistryOp) (hok : RegistryOpOK s op)
    (hinv : NickInv s) : NickInv (applyRegistryOp s op) := by
  obtain ⟨hnodup, hperm, hkeys⟩ := hinv
  cases op with
  | register info height outs =>
      obtain ⟨hfreshNode, hfreshOwner, hfreshNick⟩ := hok
      simp only [applyRegistryOp, registerProducer, hfreshNode]
      rw [NickInv]
      simp only
      rw [sinsert_of_not_mem _ _ hfreshNick]
      exact NickInv_register_aux s info.ownerPublicKey
        { info := info, state := ProducerState.Pending, registerHeight := height,
          cancelHeight := 0, inactiveSince := 0, activateRequestHeight := MaxUint32,
          illegalHeight := 0, penalty := 0, votes := 0, dposV2Votes := 0,
          detailedDPoSV2Votes := [], depositAmount := MinDepositAmount,
          totalAmount := (outs.map Prod.snd).sum,
          depositHash := depositProgramHash info.ownerPublicKey, selected := false,
          randomCandidateInactiveCount := 0, inactiveCountingHeight := 0,
          lastUpdateInactiveHeight := 0, inactiveCount := 0 }
        rfl hfreshOwner hfreshNick hnodup hperm hkeys
  | cancel owner height =>
      obtain ⟨hnode, hgp, hcanc⟩ := hok
      rcases hf : mfind s.producers owner with _ | p
      · rw [hf] at hcanc
        simp [RegistryOpOK.cancelableState] at hcanc
      · rw [hf] at hcanc
        simp only [RegistryOpOK.cancelableState, decide_eq_true_eq] at hcanc
        have hlive := notCanceledOrReturned_of_cancelable p.state hcanc
        have hgps : getProducer s owner = some p := by rw [hgp, hf]
        have hcount : ∀ a, (liveNickList (mset s.producers owner
            { p with state := ProducerState.Canceled, cancelHeight := height })).count a =
            if a = p.info.nickName then 0 else (liveNickList s.producers).count a := by
          intro a
          have hc := count_liveNickList_mset s.producers owner p
            { p with state := ProducerState.Canceled, cancelHeight := height } hkeys hf a
          have hdead : notCanceledOrReturned
              ({ p with state := ProducerState.Canceled, cancelHeight := height } :
                Producer).state = false := rfl
          rw [hdead] at hc
          simp only [Bool.false_eq_true, false_and, if_neg, if_false, add_zero] at hc
          by_cases ha : a = p.info.nickName
          · rw [if_pos ha]
            rw [ha] at hc ⊢
            have hm := nick_mem_liveNickList s.producers owner p hf hlive
            have hpos : 0 < (liveNickList s.producers).count p.info.nickName :=
              List.count_pos_iff.mpr hm
            have hle : (liveNickList s.producers).count p.info.nickName ≤ 1 := by
              rw [← hperm.count_eq]
              exact List.nodup_iff_count_le_one.mp hnodup _
            rw [if_pos ⟨hlive, rfl⟩] at hc
            omega
          · rw [if_neg ha]
            rw [if_neg (fun hcc => ha hcc.2.symm)] at hc
            omega
        obtain ⟨hpn, hpp⟩ := cancelProducer_proj s owner height p hgps
        show NickInv (cancelProducer s owner height)
        refine ⟨?_, ?_, ?_⟩
        · rw [hpn]
          exact hnodup.filter _
        · rw [hpn, hpp]
          apply List.perm_iff_count.mpr
          intro a
          rw [count_sdel, hcount a]
          by_cases ha : a = p.info.nickName
          · rw [if_pos ha, if_pos ha]
          · rw [if_neg ha, if_neg ha, hperm.count_eq a]
        · rw [hpp, map_fst_mset_found _ _ _ (by rw [hf]; exact fun hh => Option.noConfusion hh)]
          exact hkeys

theorem NickInv_run (s : StateKeyFrame) (ops : List RegistryOp) (hwf : WFOps s ops)
    (hinv : NickInv s) : NickInv (ops.foldl applyRegistryOp s) := by
  induction hwf with
  | nil => exact hinv
  | cons s op ops hok hrest ih => exact ih (NickInv_step s op hok hinv)

/-- C2 amended: after any well-formed sequence of register and cancel
operations, the nickname set holds exactly the nicknames of the producers
that are neither Canceled nor Returned — the nickname is removed when the
producer is canceled, not when its deposit is returned.  In particular every
such producer has its nickname in the set, no two of them share a nickname,
and the size of the set equals their number. -/
theorem nickname_invariant (ops : List RegistryOp)
    (hwf : WFOps initStateKeyFrame ops) :
    (∀ k p, mfind (runRegistry ops).producers k = some p →
      notCanceledOrReturned p.state = true →
      p.info.nickName ∈ (runRegistry ops).nicknames) ∧
    (∀ k1 p1 k2 p2, mfind (runRegistry ops).producers k1 = some p1 →
      mfind (runRegistry ops).producers k2 = some p2 →
      notCanceledOrReturned p1.state = true →
      notCanceledOrReturned p2.state = true → k1 ≠ k2 →
      p1.info.nickName ≠ p2.info.nickName) ∧
    (runRegistry ops).nicknames.Nodup ∧
    (runRegistry ops).nicknames.length =
      ((runRegistry ops).producers.filter
        (fun kv => notCanceledOrReturned kv.2.state)).length := by
  have hinit : NickInv initStateKeyFrame :=
    ⟨List.nodup_nil, by unfold initStateKeyFrame liveNickList; simp, List.nodup_nil⟩
  have hinv : NickInv (runRegistry ops) := NickInv_run initStateKeyFrame ops hwf hinit
  obtain ⟨hnodup, hperm, hkeys⟩ := hinv
  refine ⟨?_, ?_, hnodup, ?_⟩
  · intro k p hf hl
    exact hperm.mem_iff.mpr (nick_mem_liveNickList _ k p hf hl)
  · intro k1 p1 k2 p2 hf1 hf2 hl1 hl2 hkk heq
    have h2c := two_le_count_liveNickList _ hkeys k1 k2 p1 p2 hf1 hf2 hkk hl1 hl2 heq
    have hle : (liveNickList (runRegistry ops).producers).count p1.info.nickName ≤ 1 := by
      rw [← hperm.count_eq]
      exact List.nodup_iff_count_le_one.mp hnodup _
    omega
  · rw [hperm.length_eq]
    unfold liveNickList
    rw [List.length_map]

/-- C2 witness: the register-then-cancel trace is well formed, and the
amended invariant instantiates on it. -/
theorem nickname_invariant_witness :
    (runRegistry exRegistryOps).nicknames.Nodup :=
  (nickname_invariant exRegistryOps
    (WFOps.cons _ _ _ (by decide)
      (WFOps.cons _ _ _ (by decide) (WFOps.nil _)))).2.2.1

end ElaState
